import Mathlib

/-!
Tic-tac-toe game engine and file store.

A shallow embedding of `game/game.go`, `game/errors.go` and
`game/storage-file.go`.

Conventions of the embedding:

* a Go `byte` is a `Nat`, a Go `string` or `[]byte` is a `List Nat` of byte values;
* a Go function that can hit a run-time panic (an index out of range) returns an
  `Option`, where `none` stands for the panic;
* a method with a pointer receiver returns the updated record next to its results;
* the random source of `math/rand` and the identifier generator are arguments.
-/

namespace TicTacToe

/-! ## Constants of `game.go` -/

/-- Status literal `"RUNNING"`. -/
def RUNNING : List Nat := [82, 85, 78, 78, 73, 78, 71]
/-- Status literal `"X_WON"`. -/
def XWON : List Nat := [88, 95, 87, 79, 78]
/-- Status literal `"O_WON"`. -/
def OWON : List Nat := [79, 95, 87, 79, 78]
/-- Status literal `"DRAW"`. -/
def DRAW : List Nat := [68, 82, 65, 87]

/-- Byte `'-'`. -/
abbrev DashChar : Nat := 45
/-- Byte `'X'`. -/
abbrev XChar : Nat := 88
/-- Byte `'O'`. -/
abbrev OChar : Nat := 79
/-- First-move constant: the computer moves first. -/
abbrev ComputerMove : Int := 0
/-- The value of `'-' xor 'O'`. -/
abbrev UserSetO : Nat := 98
/-- The value of `'-' xor 'X'`. -/
abbrev UserSetX : Nat := 117

/-- The bytes of an ASCII string literal. -/
def bytes (s : String) : List Nat := s.toList.map Char.toNat

/-! ## `errors.go` -/

/-- Game error wrapper that keeps a status code. -/
structure GameError where
  Status : Nat
  message : String
deriving DecidableEq, Repr

/-- The constructor `NewGameError(status, text, err...)`: the messages of the
wrapped errors are appended to the text, each after `": "`. -/
def NewGameError (status : Nat) (text : String) (err : List String) : GameError :=
  { Status := status, message := text ++ err.foldl (fun acc e => acc ++ ": " ++ e) "" }

/-- HTTP status `fasthttp.StatusBadRequest`. -/
abbrev StatusBadRequest : Nat := 400
/-- HTTP status `fasthttp.StatusNotFound`. -/
abbrev StatusNotFound : Nat := 404
/-- HTTP status `fasthttp.StatusInternalServerError`. -/
abbrev StatusInternalServerError : Nat := 500

/-! ## The game record -/

/-- The record `Game` of `game.go`. -/
structure Game where
  id : List Nat
  board : List Nat
  status : List Nat
deriving DecidableEq, Repr

/-- The function `NewGame(board, userSign)`; `uuid` is the 36-character string drawn
by `uuid.NewV4().String()`, of which the first character is replaced. -/
def NewGame (board : List Nat) (userSign : Nat) (uuid : List Nat) : Game :=
  let firstLetter : List Nat := if userSign = OChar then [102] else [97]
  { id := firstLetter ++ uuid.drop 1, board := board, status := RUNNING }

/-- The method `UserSign`: `X` when the id starts with `'a'`, else `O`; reading
`g.id[0]` of an empty id panics. -/
def Game.UserSign (g : Game) : Option Nat :=
  match g.id[0]? with
  | none => none
  | some c => if c = 97 then some XChar else some OChar

/-- The method `CompSign`: `O` when the id starts with `'a'`, else `X`. -/
def Game.CompSign (g : Game) : Option Nat :=
  match g.id[0]? with
  | none => none
  | some c => if c = 97 then some OChar else some XChar

/-- The loop of `MakeMove` over the permutation `rand.Perm(9)`: the first index of
the permutation whose cell is `'-'` receives `compSign`, and the loop stops. -/
def MakeMove.loop (compSign : Nat) : List Nat → List Nat → Option (List Nat)
  | [], board => some board
  | idx :: rest, board =>
    match board[idx]? with
    | none => none
    | some c =>
      if c = DashChar then some (board.set idx compSign)
      else MakeMove.loop compSign rest board

/-- The method `MakeMove`, the computer's move; `perm` is the value of `rand.Perm(9)`. -/
def Game.MakeMove (g : Game) (perm : List Nat) : Option Game :=
  match g.UserSign with
  | none => none
  | some u =>
    let compSign : Nat := if u = XChar then OChar else XChar
    match MakeMove.loop compSign perm g.board with
    | none => none
    | some b => some { g with board := b }

/-- The method `Marshal`: the JSON text of the record. -/
def Game.Marshal (g : Game) : List Nat :=
  bytes "\x7b\"id\":\"" ++ g.id ++ bytes "\",\"board\":\"" ++ g.board
    ++ bytes "\",\"status\":\"" ++ g.status ++ bytes "\"\x7d"

/-- The loop of `SetNewBoard` from cell `i` on, with `n` cells left: every new cell
must be one of the three symbols, and the xor of the old and the new cell is added
to `sum`. The result is `none` on an index out of range, an error on an invalid
symbol, and the sum otherwise. -/
def SetNewBoard.loop (board newBoard : List Nat) : Nat → Nat → Nat → Option (Except GameError Nat)
  | _, 0, sum => some (.ok sum)
  | i, n + 1, sum =>
    match newBoard[i]? with
    | none => none
    | some b =>
      if b = DashChar ∨ b = XChar ∨ b = OChar then
        match board[i]? with
        | none => none
        | some a => SetNewBoard.loop board newBoard (i + 1) n (sum + (a ^^^ b))
      else
        some (.error (NewGameError StatusBadRequest "board contains invalid chars" []))

/-- The final test of `SetNewBoard`:
`(sum == UserSetX && g.UserSign() == XChar) || (sum == UserSetO && g.UserSign() == OChar)`,
where `UserSign` is only called when the comparison before it holds. -/
def SetNewBoard.correctMove (g : Game) (sum : Nat) : Option Bool :=
  if sum = UserSetX then
    match g.UserSign with
    | none => none
    | some u =>
      if u = XChar then some true
      else if sum = UserSetO then
        match g.UserSign with
        | none => none
        | some v => some (decide (v = OChar))
      else some false
  else if sum = UserSetO then
    match g.UserSign with
    | none => none
    | some v => some (decide (v = OChar))
  else some false

/-- The method `SetNewBoard`: the record after the call, the flag and the error. -/
def Game.SetNewBoard (g : Game) (newBoard : List Nat) : Option (Game × Bool × Option GameError) :=
  if newBoard.length ≠ 9 then
    some (g, false, some (NewGameError StatusBadRequest "invalid board length" []))
  else
    match SetNewBoard.loop g.board newBoard 0 9 0 with
    | none => none
    | some (.error e) => some (g, false, some e)
    | some (.ok sum) =>
      match SetNewBoard.correctMove g sum with
      | none => none
      | some true => some ({ g with board := newBoard }, true, none)
      | some false => some (g, false, some (NewGameError StatusBadRequest "move not valid" []))

/-- The table `coords` of `CheckWin`: the two diagonals, the rows and the columns. -/
def coords : List (Nat × Nat × Nat) :=
  [(0, 4, 8), (2, 4, 6), (0, 1, 2), (3, 4, 5), (6, 7, 8), (0, 3, 6), (1, 4, 7), (2, 5, 8)]

/-- The test `g.board[c[0]] == s && g.board[c[1]] == s && g.board[c[2]] == s`,
evaluated from left to right; `none` on an index out of range. -/
def CheckWin.lineIs (board : List Nat) (s : Nat) (c : Nat × Nat × Nat) : Option Bool :=
  match board[c.1]? with
  | none => none
  | some x =>
    if x ≠ s then some false
    else
      match board[c.2.1]? with
      | none => none
      | some y =>
        if y ≠ s then some false
        else
          match board[c.2.2]? with
          | none => none
          | some z => some (decide (z = s))

/-- The first loop of `CheckWin`: some status as soon as a line holds `s` and `s` is
one of the two signs, no status when the loop ends. -/
def CheckWin.lines (board : List Nat) (s : Nat) : List (Nat × Nat × Nat) → Option (Option (List Nat))
  | [] => some none
  | c :: rest =>
    match CheckWin.lineIs board s c with
    | none => none
    | some true =>
      if s = XChar then some (some XWON)
      else if s = OChar then some (some OWON)
      else CheckWin.lines board s rest
    | some false => CheckWin.lines board s rest

/-- The second loop of `CheckWin`, from cell `i` on with `n` cells left: whether a
cell holds `'-'`. -/
def CheckWin.numDash (board : List Nat) : Nat → Nat → Option Bool
  | _, 0 => some false
  | i, n + 1 =>
    match board[i]? with
    | none => none
    | some x => if x = DashChar then some true else CheckWin.numDash board (i + 1) n

/-- The method `CheckWin(s)`: the record after the call and the returned status. -/
def Game.CheckWin (g : Game) (s : Nat) : Option (Game × List Nat) :=
  match CheckWin.lines g.board s coords with
  | none => none
  | some (some won) => some ({ g with status := won }, won)
  | some none =>
    match CheckWin.numDash g.board 0 9 with
    | none => none
    | some true => some (g, RUNNING)
    | some false => some ({ g with status := DRAW }, DRAW)

/-- The loop of `WhoMovesFirst`: the sum of the `X` and `O` bytes, or `-1` at the
first byte that is none of the three symbols. -/
def WhoMovesFirst.loop : List Nat → Int → Int
  | [], sum => sum
  | b :: rest, sum =>
    if b = XChar ∨ b = OChar then WhoMovesFirst.loop rest (sum + (b : Int))
    else if b = DashChar then WhoMovesFirst.loop rest sum
    else -1

/-- The function `WhoMovesFirst`. -/
def WhoMovesFirst (board : List Nat) : Int :=
  if board.length ≠ 9 then -1
  else if board = bytes "---------" then ComputerMove
  else WhoMovesFirst.loop board 0

/-! ## The JSON library used by `Unmarshal`

`Unmarshal` calls `ParseBytes` and `GetStringBytes` of the library
`github.com/valyala/fastjson`, which is not part of the repository. The definitions of
this section model the parser of that library on JSON text: values are parsed with the
strings kept raw, and `GetStringBytes` unescapes the string it returns. -/

namespace fastjson

/-- A parsed JSON value; object keys and strings are kept as the raw bytes between
the quotes. -/
inductive Value where
  | object (kvs : List (List Nat × Value))
  | array (a : List Value)
  | string (s : List Nat)
  | number (s : List Nat)
  | vtrue
  | vfalse
  | null

/-- The limit on the nesting depth of a value. -/
abbrev MaxDepth : Nat := 300

/-- A white-space byte: space, line feed, tab or carriage return. -/
def isWS (c : Nat) : Bool := c = 0x20 || c = 0x0A || c = 0x09 || c = 0x0D

/-- The text without its leading white space. -/
def skipWS (s : List Nat) : List Nat := s.dropWhile isWS

/-- The number of backslashes that end `s`. -/
def trailingBackslashes (s : List Nat) : Nat := (s.reverse.takeWhile (· = 92)).length

/-- The search for the closing quote of a string whose opening quote has been read: a
quote closes the string when an even number of backslashes stands right before it. -/
def parseRawString.loop : Nat → List Nat → List Nat → Except String (List Nat × List Nat)
  | 0, _, _ => .error "missing closing quote"
  | fuel + 1, acc, s =>
    match s.span (· ≠ 34) with
    | (_, []) => .error "missing closing quote"
    | (pre, _ :: tail) =>
      if trailingBackslashes pre % 2 = 0 then .ok (acc ++ pre, tail)
      else parseRawString.loop fuel (acc ++ pre ++ [34]) tail

/-- The raw string up to its closing quote, and the text after that quote. -/
def parseRawString (s : List Nat) : Except String (List Nat × List Nat) :=
  parseRawString.loop (s.length + 1) [] s

/-- A byte that may occur in a number. -/
def isNumberChar (c : Nat) : Bool :=
  (48 ≤ c && c ≤ 57) || c = 46 || c = 45 || c = 101 || c = 69 || c = 43

/-- The longest run of number bytes, which must not be empty. -/
def parseRawNumber (s : List Nat) : Except String (List Nat × List Nat) :=
  match s.span isNumberChar with
  | ([], _) => .error "unexpected char"
  | (ns, tail) => .ok (ns, tail)

/-- The members of an array after its opening bracket, `pv` parsing one value. -/
def parseArray.loop (pv : List Nat → Except String (Value × List Nat)) :
    Nat → List Value → List Nat → Except String (Value × List Nat)
  | 0, _, _ => .error "unexpected end of array"
  | fuel + 1, acc, s =>
    match pv (skipWS s) with
    | .error e => .error ("cannot parse array value: " ++ e)
    | .ok (v, s1) =>
      match skipWS s1 with
      | [] => .error "unexpected end of array"
      | c :: s2 =>
        if c = 44 then parseArray.loop pv fuel (acc ++ [v]) s2
        else if c = 93 then .ok (.array (acc ++ [v]), s2)
        else .error "missing , after array value"

/-- An array after its opening bracket. -/
def parseArray (pv : List Nat → Except String (Value × List Nat)) (s : List Nat) :
    Except String (Value × List Nat) :=
  match skipWS s with
  | [] => .error "missing ]"
  | c :: s1 =>
    if c = 93 then .ok (.array [], s1)
    else parseArray.loop pv (s.length + 1) [] (c :: s1)

/-- The members of an object after its opening brace, `pv` parsing one value. -/
def parseObject.loop (pv : List Nat → Except String (Value × List Nat)) :
    Nat → List (List Nat × Value) → List Nat → Except String (Value × List Nat)
  | 0, _, _ => .error "unexpected end of object"
  | fuel + 1, acc, s =>
    match skipWS s with
    | [] => .error "cannot find opening quote for object key"
    | q :: s1 =>
      if q ≠ 34 then .error "cannot find opening quote for object key"
      else
        match parseRawString s1 with
        | .error e => .error ("cannot parse object key: " ++ e)
        | .ok (k, s2) =>
          match skipWS s2 with
          | [] => .error "missing : after object key"
          | c :: s3 =>
            if c ≠ 58 then .error "missing : after object key"
            else
              match pv (skipWS s3) with
              | .error e => .error ("cannot parse object value: " ++ e)
              | .ok (v, s4) =>
                match skipWS s4 with
                | [] => .error "unexpected end of object"
                | d :: s5 =>
                  if d = 44 then parseObject.loop pv fuel (acc ++ [(k, v)]) s5
                  else if d = 125 then .ok (.object (acc ++ [(k, v)]), s5)
                  else .error "missing , after object value"

/-- An object after its opening brace. -/
def parseObject (pv : List Nat → Except String (Value × List Nat)) (s : List Nat) :
    Except String (Value × List Nat) :=
  match skipWS s with
  | [] => .error "missing \x7d"
  | c :: s1 =>
    if c = 125 then .ok (.object [], s1)
    else parseObject.loop pv (s.length + 1) [] (c :: s1)

/-- One value at the head of the text and the text after it; the first argument is
the number of nesting levels that are still allowed. -/
def parseValue : Nat → List Nat → Except String (Value × List Nat)
  | 0, _ => .error "too big depth for the nested JSON"
  | depth + 1, s =>
    match s with
    | [] => .error "cannot parse empty string"
    | c :: rest =>
      if c = 123 then parseObject (parseValue depth) rest
      else if c = 91 then parseArray (parseValue depth) rest
      else if c = 34 then
        match parseRawString rest with
        | .error e => .error ("cannot parse string: " ++ e)
        | .ok (ss, tail) => .ok (.string ss, tail)
      else if c = 116 then
        if s.take 4 = bytes "true" then .ok (.vtrue, s.drop 4) else .error "unexpected value found"
      else if c = 102 then
        if s.take 5 = bytes "false" then .ok (.vfalse, s.drop 5)
        else .error "unexpected value found"
      else if c = 110 then
        if s.take 4 = bytes "null" then .ok (.null, s.drop 4) else .error "unexpected value found"
      else
        match parseRawNumber s with
        | .error e => .error ("cannot parse number: " ++ e)
        | .ok (ns, tail) => .ok (.number ns, tail)

/-- The function `ParseBytes`: one value, with white space around it and nothing else. -/
def ParseBytes (b : List Nat) : Except String Value :=
  match parseValue MaxDepth (skipWS b) with
  | .error e => .error ("cannot parse JSON: " ++ e)
  | .ok (v, tail) =>
    match skipWS tail with
    | [] => .ok v
    | _ :: _ => .error "unexpected tail"

/-- The value of a hexadecimal digit. -/
def hexDigit (c : Nat) : Option Nat :=
  if 48 ≤ c ∧ c ≤ 57 then some (c - 48)
  else if 97 ≤ c ∧ c ≤ 102 then some (c - 87)
  else if 65 ≤ c ∧ c ≤ 70 then some (c - 55)
  else none

/-- The value of four hexadecimal digits. -/
def parseHex4 (s : List Nat) : Option Nat :=
  match s with
  | [a, b, c, d] =>
    match hexDigit a, hexDigit b, hexDigit c, hexDigit d with
    | some x, some y, some z, some w => some (((x * 16 + y) * 16 + z) * 16 + w)
    | _, _, _, _ => none
  | _ => none

/-- The UTF-8 bytes of a code point; a surrogate or a value above `0x10FFFF` is
written as the replacement character. -/
def utf8 (r : Nat) : List Nat :=
  if r < 0x80 then [r]
  else if r < 0x800 then [0xC0 + r / 64, 0x80 + r % 64]
  else if (0xD800 ≤ r ∧ r < 0xE000) ∨ 0x10FFFF < r then [0xEF, 0xBF, 0xBD]
  else if r < 0x10000 then [0xE0 + r / 4096, 0x80 + r / 64 % 64, 0x80 + r % 64]
  else [0xF0 + r / 262144, 0x80 + r / 4096 % 64, 0x80 + r / 64 % 64, 0x80 + r % 64]

/-- The code point of a surrogate pair, or the replacement character. -/
def decodeRune (r1 r2 : Nat) : Nat :=
  if 0xD800 ≤ r1 ∧ r1 < 0xDC00 ∧ 0xDC00 ≤ r2 ∧ r2 < 0xE000 then
    (r1 - 0xD800) * 1024 + (r2 - 0xDC00) + 0x10000
  else 0xFFFD

/-- One escape sequence, `ch` being the byte after the backslash and `s` the text after
`ch`: the bytes it stands for, and the text after the sequence. An unknown or broken
sequence is kept as it is written. -/
def unescapeOne (ch : Nat) (s : List Nat) : List Nat × List Nat :=
  if ch = 34 then ([34], s)
  else if ch = 92 then ([92], s)
  else if ch = 47 then ([47], s)
  else if ch = 98 then ([8], s)
  else if ch = 102 then ([12], s)
  else if ch = 110 then ([10], s)
  else if ch = 114 then ([13], s)
  else if ch = 116 then ([9], s)
  else if ch = 117 then
    if s.length < 4 then ([92, 117], s)
    else
      match parseHex4 (s.take 4) with
      | none => ([92, 117], s)
      | some x =>
        let s1 := s.drop 4
        if ¬ (0xD800 ≤ x ∧ x < 0xE000) then (utf8 x, s1)
        else if s1.length < 6 ∨ s1.take 2 ≠ [92, 117] then ([92, 117] ++ s.take 4, s1)
        else
          match parseHex4 ((s1.drop 2).take 4) with
          | none => ([92, 117] ++ s.take 4, s1)
          | some x1 => (utf8 (decodeRune x x1), s1.drop 6)
  else ([92, ch], s)

/-- The loop of the unescaping, `s` being the text after a backslash. -/
def unescape.loop : Nat → List Nat → List Nat → List Nat
  | 0, b, _ => b
  | _ + 1, b, [] => b
  | fuel + 1, b, ch :: s =>
    match (unescapeOne ch s).2.span (· ≠ 92) with
    | (pre, []) => b ++ (unescapeOne ch s).1 ++ pre
    | (pre, _ :: rest) => unescape.loop fuel (b ++ (unescapeOne ch s).1 ++ pre) rest

/-- The function `unescapeStringBestEffort`: a string without a backslash is returned
as it is. -/
def unescapeStringBestEffort (s : List Nat) : List Nat :=
  match s.span (· ≠ 92) with
  | (_, []) => s
  | (pre, _ :: rest) => unescape.loop (s.length + 1) pre rest

/-- The method `Get` with one key, for the keys that are not array indices: the value
of the first member of an object whose key is `key`, the raw keys being tried before
the unescaped ones. -/
def Value.Get (v : Value) (key : List Nat) : Option Value :=
  match v with
  | .object kvs =>
    match (if 92 ∈ key then none else kvs.find? (fun kv => kv.1 = key)) with
    | some kv => some kv.2
    | none =>
      match kvs.find? (fun kv => unescapeStringBestEffort kv.1 = key) with
      | some kv => some kv.2
      | none => none
  | _ => none

/-- The method `GetStringBytes` with one key: the unescaped string stored under the
key, and nil (no bytes) when there is no such member or it is not a string. -/
def Value.GetStringBytes (v : Value) (key : List Nat) : List Nat :=
  match v.Get key with
  | some (.string s) => unescapeStringBestEffort s
  | _ => []

end fastjson

/-- The function `Unmarshal`: parse a game file into a record. -/
def Unmarshal (buf : List Nat) : Except GameError Game :=
  match fastjson.ParseBytes buf with
  | .error err => .error (NewGameError StatusInternalServerError "can't parse game file" [err])
  | .ok val =>
    .ok { id := val.GetStringBytes (bytes "id"),
          board := val.GetStringBytes (bytes "board"),
          status := val.GetStringBytes (bytes "status") }

/-! ## `storage-file.go`

The store is run by one caller at a time. Its state holds the reader/writer lock, the
files on disk (by path) and the lines written to the log. An operation either returns,
with its results and the state after the call, or waits for the lock for ever. What
the operating system does with the calls of one operation is an argument of the
operation. -/

/-- The maximum file size for one stored game. -/
abbrev maxFileSize : Nat := 512

/-- The backup file extension. -/
def backupExt : List Nat := bytes ".bak"

/-- The state of a `sync.RWMutex`: the number of read locks held, and whether the
write lock is held. -/
structure RWMutex where
  readers : Nat
  writer : Bool
deriving DecidableEq, Repr

/-- The method `RLock`; `none` when the caller has to wait, which it does as long as the
write lock is held. -/
def RWMutex.RLock (m : RWMutex) : Option RWMutex :=
  if m.writer then none else some { m with readers := m.readers + 1 }

/-- The method `RUnlock`. -/
def RWMutex.RUnlock (m : RWMutex) : RWMutex := { m with readers := m.readers - 1 }

/-- The method `Lock`; `none` when the caller has to wait, which it does as long as any
lock is held. -/
def RWMutex.Lock (m : RWMutex) : Option RWMutex :=
  if m.writer ∨ m.readers ≠ 0 then none else some { m with writer := true }

/-- The method `Unlock`. -/
def RWMutex.Unlock (m : RWMutex) : RWMutex := { m with writer := false }

/-- The files on disk: path and content. -/
abbrev Files := List (List Nat × List Nat)

/-- The content of the file at `fname`, if there is one. -/
def Files.content : Files → List Nat → Option (List Nat)
  | [], _ => none
  | e :: rest, fname => if e.1 = fname then some e.2 else Files.content rest fname

/-- The disk without the file at `fname`. -/
def Files.without : Files → List Nat → Files
  | [], _ => []
  | e :: rest, fname =>
    if e.1 = fname then Files.without rest fname else e :: Files.without rest fname

/-- The disk with `data` as the content of the file at `fname`. -/
def Files.withFile (disk : Files) (fname data : List Nat) : Files :=
  (fname, data) :: disk.without fname

/-- How a call of `ioutil.WriteFile` goes wrong: not at all, before the file is opened,
or after `n` bytes have been written to the truncated file. -/
inductive WriteFault where
  | none
  | cannotOpen
  | short (n : Nat)
deriving DecidableEq, Repr

/-- The failures of the operating system during one store operation: each field says
whether the call of that kind fails for a reason of its own (a missing file fails
without it). -/
structure Faults where
  stat : Bool
  read : Bool
  rename : Bool
  write : WriteFault
  remove : Bool
  readDir : Bool
deriving DecidableEq, Repr

/-- No failure of the operating system. -/
def Faults.none : Faults :=
  { stat := false, read := false, rename := false, write := WriteFault.none, remove := false,
    readDir := false }

/-- The error of `os.Stat`: the file does not exist, or another error. -/
inductive StatError where
  | notExist
  | other
deriving DecidableEq, Repr

/-- The call `os.Stat(fname)`, reduced to the size of the file. -/
def osStat (disk : Files) (fname : List Nat) (f : Faults) : Except StatError Nat :=
  if f.stat then .error .other
  else
    match disk.content fname with
    | some c => .ok c.length
    | none => .error .notExist

/-- The text of a `StatError`. -/
def StatError.Error : StatError → String
  | .notExist => "no such file or directory"
  | .other => "stat failed"

/-- The call `ioutil.ReadFile(fname)`. -/
def osReadFile (disk : Files) (fname : List Nat) (f : Faults) : Except String (List Nat) :=
  if f.read then .error "read failed"
  else
    match disk.content fname with
    | some c => .ok c
    | none => .error "no such file or directory"

/-- The call `os.Rename(oldpath, newpath)`: the file moves as a whole and replaces a
file at the new path; on an error the disk is unchanged. -/
def osRename (disk : Files) (oldpath newpath : List Nat) (f : Faults) : Except String Files :=
  if f.rename then .error "rename failed"
  else
    match disk.content oldpath with
    | none => .error "no such file or directory"
    | some c => .ok ((disk.without oldpath).withFile newpath c)

/-- The call `ioutil.WriteFile(fname, data, 0640)`: the disk after the call and the
error. -/
def osWriteFile (disk : Files) (fname data : List Nat) (f : Faults) : Files × Option String :=
  match f.write with
  | .none => (disk.withFile fname data, none)
  | .cannotOpen => (disk, some "open failed")
  | .short n => (disk.withFile fname (data.take n), some "write failed")

/-- The call `os.Remove(fname)`; on an error the disk is unchanged. -/
def osRemove (disk : Files) (fname : List Nat) (f : Faults) : Except String Files :=
  if f.remove then .error "remove failed"
  else
    match disk.content fname with
    | none => .error "no such file or directory"
    | some _ => .ok (disk.without fname)

/-- The order of file names in a directory listing. -/
def nameLE : List Nat → List Nat → Bool
  | [], _ => true
  | _ :: _, [] => false
  | a :: as, b :: bs => a < b || (a = b && nameLE as bs)

/-- The call `ioutil.ReadDir(path)`, reduced to the names of the entries: the files
right under `path`, sorted by name. -/
def osReadDir (disk : Files) (path : List Nat) (f : Faults) : Except String (List (List Nat)) :=
  if f.readDir then .error "readdir failed"
  else
    .ok (((disk.map (fun e => e.1)).filterMap (fun p =>
      if (path ++ bytes "/").isPrefixOf p ∧ 47 ∉ p.drop (path.length + 1)
          ∧ p.drop (path.length + 1) ≠ [] then
        some (p.drop (path.length + 1))
      else Option.none)).mergeSort nameLE)

/-- The record `StorageFile` with the part of the world it acts on: the storage path,
the lock, the files on disk and the lines written to the log. -/
structure StorageFile where
  path : List Nat
  rwm : RWMutex
  disk : Files
  log : List (List Nat)
deriving DecidableEq, Repr

/-- The outcome of a store operation: it returns `value` and leaves the store in the
state `store`, or it never returns because it waits for the lock. -/
inductive Outcome (α : Type) where
  | returns (value : α) (store : StorageFile)
  | blocks

/-- The method `IsValidGameId`: the id matches `^[0-9a-f-]{36}$`. -/
def IsValidGameId (gameId : List Nat) : Bool :=
  gameId.length = 36 ∧ ∀ c ∈ gameId, (48 ≤ c ∧ c ≤ 57) ∨ (97 ≤ c ∧ c ≤ 102) ∨ c = 45

/-- The method `IsGameExists`: the read lock is taken and released on return. -/
def StorageFile.IsGameExists (s : StorageFile) (gameId : List Nat) (f : Faults) :
    Outcome (Bool × Option StatError) :=
  let fname := s.path ++ bytes "/" ++ gameId
  match s.rwm.RLock with
  | none => .blocks
  | some m =>
    match osStat s.disk fname f with
    | .ok _ => .returns (true, none) { s with rwm := m.RUnlock }
    | .error err => .returns (false, some err) { s with rwm := m.RUnlock }

/-- The method `GetRaw`: the read lock is taken, and released after the file has been
read; the three returns before the read leave it held. -/
def StorageFile.GetRaw (s : StorageFile) (gameId : List Nat) (f : Faults) :
    Outcome (Except GameError (List Nat)) :=
  let fname := s.path ++ bytes "/" ++ gameId
  match s.rwm.RLock with
  | none => .blocks
  | some m =>
    match osStat s.disk fname f with
    | .ok size =>
      if size > maxFileSize then
        .returns (.error (NewGameError StatusInternalServerError "game file too large" []))
          { s with rwm := m }
      else
        match osReadFile s.disk fname f with
        | .error err =>
          .returns
            (.error (NewGameError StatusInternalServerError "can't read file content" [err]))
            { s with rwm := m.RUnlock }
        | .ok content => .returns (.ok content) { s with rwm := m.RUnlock }
    | .error .notExist =>
      .returns (.error (NewGameError StatusNotFound "game not exists" [StatError.notExist.Error]))
        { s with rwm := m }
    | .error .other =>
      .returns
        (.error (NewGameError StatusInternalServerError "error while checking file"
          [StatError.other.Error]))
        { s with rwm := m }

/-- The method `Get`. -/
def StorageFile.Get (s : StorageFile) (gameId : List Nat) (f : Faults) :
    Outcome (Except GameError Game) :=
  match s.GetRaw gameId f with
  | .blocks => .blocks
  | .returns (.error err) s1 => .returns (.error err) s1
  | .returns (.ok content) s1 =>
    if content.length = 0 then
      .returns (.error (NewGameError StatusInternalServerError "file content has zero size" []))
        s1
    else
      match Unmarshal content with
      | .error err => .returns (.error err) s1
      | .ok game => .returns (.ok game) s1

/-- The second and third step of `Save`: write the new game file under the write lock,
then remove the backup under the write lock if one was made. A backup that cannot be
removed is logged and is no error. -/
def Save.write (s : StorageFile) (game : Game) (fname : List Nat) (removeBackup : Bool)
    (f : Faults) : Outcome (Option GameError) :=
  let buf := game.Marshal
  match s.rwm.Lock with
  | none => .blocks
  | some m =>
    match osWriteFile s.disk fname buf f with
    | (d, some err) =>
      .returns (some (NewGameError StatusInternalServerError "can't write game file" [err]))
        { s with rwm := m.Unlock, disk := d }
    | (d, none) =>
      if removeBackup then
        match m.Unlock.Lock with
        | none => .blocks
        | some m2 =>
          match osRemove d (fname ++ backupExt) f with
          | .error err =>
            .returns none
              { s with rwm := m2.Unlock, disk := d,
                       log := s.log ++ [bytes "game " ++ game.id
                         ++ bytes ": can't remove backup file " ++ fname ++ backupExt
                         ++ bytes ": " ++ bytes err] }
          | .ok d2 => .returns none { s with rwm := m2.Unlock, disk := d2 }
      else .returns none { s with rwm := m.Unlock, disk := d }

/-- The method `Save`: when a file of the game exists it is first renamed to the backup
under the write lock; then the new file is written and the backup removed. -/
def StorageFile.Save (s : StorageFile) (game : Game) (f : Faults) : Outcome (Option GameError) :=
  let fname := s.path ++ bytes "/" ++ game.id
  match s.IsGameExists game.id f with
  | .blocks => .blocks
  | .returns (ok, _) s1 =>
    if ok then
      match s1.rwm.Lock with
      | none => .blocks
      | some m =>
        match osRename s1.disk fname (fname ++ backupExt) f with
        | .error err =>
          .returns
            (some (NewGameError StatusInternalServerError "can't create game file backup" [err]))
            { s1 with rwm := m.Unlock }
        | .ok d => Save.write { s1 with rwm := m.Unlock, disk := d } game fname true f
    else Save.write s1 game fname false f

/-- The method `Delete`. -/
def StorageFile.Delete (s : StorageFile) (gameId : List Nat) (f : Faults) :
    Outcome (Option GameError) :=
  match s.IsGameExists gameId f with
  | .blocks => .blocks
  | .returns (ok, _) s1 =>
    if ¬ ok then .returns (some (NewGameError StatusNotFound "game not found" [])) s1
    else if ¬ IsValidGameId gameId then
      .returns (some (NewGameError StatusBadRequest "invalid game id" [])) s1
    else
      match s1.rwm.Lock with
      | none => .blocks
      | some m =>
        match osRemove s1.disk (s.path ++ bytes "/" ++ gameId) f with
        | .error err =>
          .returns
            (some (NewGameError StatusInternalServerError "can't remove game file" [err]))
            { s1 with rwm := m.Unlock }
        | .ok d => .returns none { s1 with rwm := m.Unlock, disk := d }

/-- The loop of `ListRaw` over the directory entries. -/
def listRawLoop (f : Faults) : List (List Nat) → StorageFile → List (List Nat) →
    Outcome (Except GameError (List (List Nat)))
  | [], s, res => .returns (.ok res) s
  | name :: rest, s, res =>
    if ¬ IsValidGameId name then
      listRawLoop f rest
        { s with log := s.log
            ++ [bytes "invalid game id (" ++ name ++ bytes ") detected in storage. Remove it manually"] }
        res
    else
      match s.GetRaw name f with
      | .blocks => .blocks
      | .returns (.error err) s1 => .returns (.error err) s1
      | .returns (.ok game) s1 => listRawLoop f rest s1 (res ++ [game])

/-- The method `ListRaw`. -/
def StorageFile.ListRaw (s : StorageFile) (f : Faults) :
    Outcome (Except GameError (List (List Nat))) :=
  match s.rwm.RLock with
  | none => .blocks
  | some m =>
    match osReadDir s.disk s.path f with
    | .error err =>
      .returns (.error (NewGameError StatusInternalServerError "can't read storage dir" [err]))
        { s with rwm := m.RUnlock }
    | .ok files => listRawLoop f files { s with rwm := m.RUnlock } []

/-- The loop of `List` over the directory entries: an entry whose name is no valid id
is logged and skipped, the first error of `Get` ends the loop. -/
def listLoop (f : Faults) : List (List Nat) → StorageFile → List Game →
    Outcome (Except GameError (List Game))
  | [], s, res => .returns (.ok res) s
  | name :: rest, s, res =>
    if ¬ IsValidGameId name then
      listLoop f rest
        { s with log := s.log
            ++ [bytes "invalid game id (" ++ name ++ bytes ") detected in storage. Remove it manually"] }
        res
    else
      match s.Get name f with
      | .blocks => .blocks
      | .returns (.error err) s1 => .returns (.error err) s1
      | .returns (.ok game) s1 => listLoop f rest s1 (res ++ [game])

/-- The method `List`. It is the last definition of the namespace `StorageFile`, where
its name hides the type of lists. -/
def StorageFile.List (s : StorageFile) (f : Faults) : Outcome (Except GameError (List Game)) :=
  match s.rwm.RLock with
  | none => .blocks
  | some m =>
    match osReadDir s.disk s.path f with
    | .error err =>
      .returns (.error (NewGameError StatusInternalServerError "can't read storage dir" [err]))
        { s with rwm := m.RUnlock }
    | .ok files => listLoop f files { s with rwm := m.RUnlock } []

/-! ## Predicates used to state the properties -/

/-- One of the three board symbols. -/
def validCell (c : Nat) : Prop := c = DashChar ∨ c = XChar ∨ c = OChar

instance (c : Nat) : Decidable (validCell c) := by unfold validCell; infer_instance

/-- The sum of the cell-wise xor of two boards. -/
def xorSum (old new : List Nat) : Nat := (List.zipWith (· ^^^ ·) old new).sum

/-- The eight lines of the 3×3 grid in row-major order, written from the rules of
the game: three rows, three columns, two diagonals. -/
def winningLines : List (Nat × Nat × Nat) :=
  (List.range 3).map (fun r => (3 * r, 3 * r + 1, 3 * r + 2))
    ++ (List.range 3).map (fun c => (c, c + 3, c + 6))
    ++ [(0, 4, 8), (2, 4, 6)]

/-- All three cells of the line `c` hold the sign `s`. -/
def holdsLine (board : List Nat) (s : Nat) (c : Nat × Nat × Nat) : Prop :=
  board[c.1]? = some s ∧ board[c.2.1]? = some s ∧ board[c.2.2]? = some s

instance (board : List Nat) (s : Nat) (c : Nat × Nat × Nat) : Decidable (holdsLine board s c) := by
  unfold holdsLine; infer_instance

/-- Some line of the grid holds `s` in all three cells. -/
def threeInARow (board : List Nat) (s : Nat) : Prop :=
  ∃ c ∈ winningLines, holdsLine board s c

instance (board : List Nat) (s : Nat) : Decidable (threeInARow board s) := by
  unfold threeInARow; infer_instance

/-- The boards differ in exactly one cell, and the old value `x` and the new value `y`
of that cell satisfy `P`. -/
def oneCellChanged (old new : List Nat) (P : Nat → Nat → Prop) : Prop :=
  ∃ pre post x y, old = pre ++ x :: post ∧ new = pre ++ y :: post ∧ x ≠ y ∧ P x y

/-- A text without a double quote and without a backslash. -/
def plain (s : List Nat) : Prop := ∀ c ∈ s, c ≠ 34 ∧ c ≠ 92

instance (s : List Nat) : Decidable (plain s) := by unfold plain; infer_instance

/-- The status is one of the three terminal ones. -/
def terminal (status : List Nat) : Prop := status = XWON ∨ status = OWON ∨ status = DRAW

instance (status : List Nat) : Decidable (terminal status) := by
  unfold terminal; infer_instance

/-! ## Sanity checks of the constants -/

theorem status_literals :
    RUNNING = bytes "RUNNING" ∧ XWON = bytes "X_WON" ∧ OWON = bytes "O_WON"
      ∧ DRAW = bytes "DRAW" := by
  decide

theorem xor_constants :
    DashChar ^^^ XChar = UserSetX ∧ DashChar ^^^ OChar = UserSetO ∧ XChar ^^^ OChar = 23 := by
  decide

/-! ## `WhoMovesFirst` -/

theorem WhoMovesFirst.loop_valid (b : List Nat) (acc : Int) (h : ∀ c ∈ b, validCell c) :
    WhoMovesFirst.loop b acc = acc + 88 * (b.count XChar : Int) + 79 * (b.count OChar : Int) := by
  induction b generalizing acc with
  | nil => simp [WhoMovesFirst.loop]
  | cons c rest ih =>
    have hc := h c (List.mem_cons_self c rest)
    have hrest : ∀ d ∈ rest, validCell d := fun d hd => h d (List.mem_cons_of_mem c hd)
    rcases hc with hc | hc | hc <;> subst hc <;>
      simp [WhoMovesFirst.loop, ih _ hrest, List.count_cons] <;> ring

theorem WhoMovesFirst.loop_invalid (b : List Nat) (acc : Int) (h : ∃ c ∈ b, ¬ validCell c) :
    WhoMovesFirst.loop b acc = -1 := by
  induction b generalizing acc with
  | nil => simp at h
  | cons c rest ih =>
    by_cases hc : validCell c
    · have hrest : ∃ d ∈ rest, ¬ validCell d := by
        obtain ⟨d, hd, hv⟩ := h
        rcases List.mem_cons.mp hd with rfl | hd
        · exact absurd hc hv
        · exact ⟨d, hd, hv⟩
      rcases hc with hc | hc | hc <;> subst hc <;> simp [WhoMovesFirst.loop, ih _ hrest]
    · have h1 : ¬ (c = XChar ∨ c = OChar) := fun h' => hc (Or.inr h')
      have h2 : ¬ c = DashChar := fun h' => hc (Or.inl h')
      simp only [WhoMovesFirst.loop, if_neg h1, if_neg h2]

theorem count_valid (b : List Nat) (h : ∀ c ∈ b, validCell c) :
    b.count DashChar + b.count XChar + b.count OChar = b.length := by
  induction b with
  | nil => simp
  | cons c rest ih =>
    have hc := h c (List.mem_cons_self c rest)
    have hrest : ∀ d ∈ rest, validCell d := fun d hd => h d (List.mem_cons_of_mem c hd)
    have := ih hrest
    rcases hc with hc | hc | hc <;> subst hc <;> simp [List.count_cons] <;> omega

theorem count_invalid (b : List Nat) (h : ∃ c ∈ b, ¬ validCell c) :
    b.count DashChar + b.count XChar + b.count OChar < b.length := by
  induction b with
  | nil => simp at h
  | cons c rest ih =>
    have hle : rest.count DashChar + rest.count XChar + rest.count OChar ≤ rest.length := by
      have h1 := List.count_le_length DashChar rest
      by_cases hall : ∀ d ∈ rest, validCell d
      · exact (count_valid rest hall).le
      · push_neg at hall
        exact (ih hall).le
    by_cases hc : validCell c
    · have hrest : ∃ d ∈ rest, ¬ validCell d := by
        obtain ⟨d, hd, hv⟩ := h
        rcases List.mem_cons.mp hd with rfl | hd
        · exact absurd hc hv
        · exact ⟨d, hd, hv⟩
      have := ih hrest
      rcases hc with hc | hc | hc <;> subst hc <;> simp [List.count_cons] <;> omega
    · have h1 : ¬ c = DashChar := fun h' => hc (Or.inl h')
      have h2 : ¬ c = XChar := fun h' => hc (Or.inr (Or.inl h'))
      have h3 : ¬ c = OChar := fun h' => hc (Or.inr (Or.inr h'))
      have e1 : (c :: rest).count DashChar = rest.count DashChar := by
        simp [List.count_cons, h1]
      have e2 : (c :: rest).count XChar = rest.count XChar := by
        simp [List.count_cons, h2]
      have e3 : (c :: rest).count OChar = rest.count OChar := by
        simp [List.count_cons, h3]
      rw [e1, e2, e3, List.length_cons]
      omega

theorem dashes_iff (b : List Nat) :
    b = bytes "---------" ↔ b.length = 9 ∧ b.count DashChar = 9 := by
  have hb : bytes "---------" = List.replicate 9 DashChar := by decide
  rw [hb]
  constructor
  · rintro rfl
    simp
  · rintro ⟨hl, hc⟩
    rw [List.eq_replicate_iff]
    refine ⟨hl, fun c hc' => ?_⟩
    have : b.count DashChar = b.length := by omega
    exact (List.count_eq_length.mp this c hc').symm

/-- C3: `WhoMovesFirst` yields `ComputerMove` exactly on the all-dash board, `XChar`
exactly on the nine-cell boards with one `X` and eight dashes, `OChar` exactly on the
nine-cell boards with one `O` and eight dashes; a wrong length or a foreign byte
yields `-1`, and a board with two or more filled cells yields none of the three
values. -/
theorem WhoMovesFirst_spec (b : List Nat) :
    (WhoMovesFirst b = ComputerMove ↔ b = bytes "---------") ∧
    (WhoMovesFirst b = (XChar : Int) ↔
      b.length = 9 ∧ b.count XChar = 1 ∧ b.count DashChar = 8) ∧
    (WhoMovesFirst b = (OChar : Int) ↔
      b.length = 9 ∧ b.count OChar = 1 ∧ b.count DashChar = 8) ∧
    (b.length ≠ 9 → WhoMovesFirst b = -1) ∧
    ((∃ c ∈ b, ¬ validCell c) → WhoMovesFirst b = -1) ∧
    (b.count DashChar + 2 ≤ b.length →
      WhoMovesFirst b ≠ ComputerMove ∧ WhoMovesFirst b ≠ (XChar : Int)
        ∧ WhoMovesFirst b ≠ (OChar : Int)) := by
  have hX : ((XChar : Nat) : Int) = 88 := rfl
  have hO : ((OChar : Nat) : Int) = 79 := rfl
  have hC : ComputerMove = 0 := rfl
  rw [hX, hO, hC]
  by_cases hl : b.length = 9
  · by_cases hd : b = bytes "---------"
    · have hd' := (dashes_iff b).mp hd
      have hx : b.count XChar = 0 := by subst hd; decide
      have ho : b.count OChar = 0 := by subst hd; decide
      have hv : ∀ c ∈ b, validCell c := by subst hd; decide
      have hw : WhoMovesFirst b = 0 := by subst hd; decide
      refine ⟨⟨fun _ => hd, fun _ => hw⟩, ?_, ?_, by simp [hl], ?_, ?_⟩
      · rw [hw]; constructor
        · intro h; norm_num at h
        · rintro ⟨_, h, _⟩; omega
      · rw [hw]; constructor
        · intro h; norm_num at h
        · rintro ⟨_, h, _⟩; omega
      · intro h
        have := count_invalid b h
        omega
      · intro h; omega
    · have hd' : ¬ (b.length = 9 ∧ b.count DashChar = 9) := fun h => hd ((dashes_iff b).mpr h)
      have hw : WhoMovesFirst b = WhoMovesFirst.loop b 0 := by simp [WhoMovesFirst, hl, hd]
      by_cases hv : ∀ c ∈ b, validCell c
      · have hc := count_valid b hv
        have hloop := WhoMovesFirst.loop_valid b 0 hv
        rw [hw, hloop]
        refine ⟨?_, ?_, ?_, by simp [hl], ?_, ?_⟩
        · simp only [hd, iff_false]; intro h; apply hd'; omega
        · constructor
          · intro h; push_cast at h; omega
          · rintro ⟨_, h1, h2⟩
            have : b.count OChar = 0 := by omega
            rw [h1, this]; norm_num
        · constructor
          · intro h; push_cast at h; omega
          · rintro ⟨_, h1, h2⟩
            have : b.count XChar = 0 := by omega
            rw [h1, this]; norm_num
        · intro h
          obtain ⟨c, hc1, hc2⟩ := h
          exact absurd (hv c hc1) hc2
        · intro h
          refine ⟨?_, ?_, ?_⟩ <;> intro h' <;> omega
      · push_neg at hv
        have hloop := WhoMovesFirst.loop_invalid b 0 hv
        have hc := count_invalid b hv
        rw [hw, hloop]
        refine ⟨?_, ?_, ?_, by simp [hl], fun _ => rfl, ?_⟩
        · simp only [hd, iff_false]; intro h; norm_num at h
        · constructor
          · intro h; norm_num at h
          · rintro ⟨_, h1, h2⟩; omega
        · constructor
          · intro h; norm_num at h
          · rintro ⟨_, h1, h2⟩; omega
        · intro _; refine ⟨?_, ?_, ?_⟩ <;> intro h' <;> norm_num at h'
  · have hw : WhoMovesFirst b = -1 := by simp [WhoMovesFirst, hl]
    rw [hw]
    refine ⟨?_, ?_, ?_, fun _ => rfl, fun _ => rfl, ?_⟩
    · constructor
      · intro h; norm_num at h
      · intro h; exact absurd ((dashes_iff b).mp h).1 hl
    · constructor
      · intro h; norm_num at h
      · rintro ⟨h, _⟩; exact absurd h hl
    · constructor
      · intro h; norm_num at h
      · rintro ⟨h, _⟩; exact absurd h hl
    · intro _; refine ⟨?_, ?_, ?_⟩ <;> intro h' <;> norm_num at h'

/-! ## `NewGame`, `UserSign`, `CompSign` -/

/-- C8: `NewGame` returns a RUNNING record with the given board and a 36-character id
that starts with `'a'` for a human `X` and with `'f'` for a human `O` and continues
with the drawn identifier; `UserSign` of the new record is the given sign and
`CompSign` the other one; both are functions of the first character of the id and
differ on every non-empty id. -/
theorem NewGame_spec (board uuid : List Nat) (userSign : Nat)
    (hsign : userSign = XChar ∨ userSign = OChar) (hlen : uuid.length = 36) :
    (NewGame board userSign uuid).status = RUNNING ∧
    (NewGame board userSign uuid).board = board ∧
    (NewGame board userSign uuid).id.length = 36 ∧
    (NewGame board userSign uuid).id.drop 1 = uuid.drop 1 ∧
    (userSign = XChar → (NewGame board userSign uuid).id[0]? = some 97) ∧
    (userSign = OChar → (NewGame board userSign uuid).id[0]? = some 102) ∧
    (NewGame board userSign uuid).UserSign = some userSign ∧
    (NewGame board userSign uuid).CompSign
      = some (if userSign = XChar then OChar else XChar) ∧
    (∀ g₁ g₂ : Game, g₁.id[0]? = g₂.id[0]? →
      g₁.UserSign = g₂.UserSign ∧ g₁.CompSign = g₂.CompSign) ∧
    (∀ g : Game, g.id ≠ [] → ∃ u c, g.UserSign = some u ∧ g.CompSign = some c ∧ u ≠ c
      ∧ (u = XChar ∨ u = OChar) ∧ (c = XChar ∨ c = OChar)) := by
  refine ⟨rfl, rfl, ?_, ?_, ?_, ?_, ?_, ?_, ?_, ?_⟩
  · rcases hsign with h | h <;> subst h <;> simp [NewGame, hlen]
  · rcases hsign with h | h <;> subst h <;> simp [NewGame]
  · intro h; subst h; simp [NewGame]
  · intro h; subst h; simp [NewGame]
  · rcases hsign with h | h <;> subst h <;> simp [NewGame, Game.UserSign]
  · rcases hsign with h | h <;> subst h <;> simp [NewGame, Game.CompSign]
  · intro g₁ g₂ h
    simp only [Game.UserSign, Game.CompSign, h, and_self]
  · intro g hg
    obtain ⟨c, rest, hc⟩ := List.exists_cons_of_ne_nil hg
    by_cases h97 : c = 97
    · exact ⟨XChar, OChar, by simp [Game.UserSign, hc, h97], by simp [Game.CompSign, hc, h97],
        by decide, Or.inl rfl, Or.inr rfl⟩
    · exact ⟨OChar, XChar, by simp [Game.UserSign, hc, h97], by simp [Game.CompSign, hc, h97],
        by decide, Or.inr rfl, Or.inl rfl⟩

theorem NewGame_spec_witness :
    (NewGame (bytes "---------") XChar (bytes "3f2b8c1e-7d4a-4c19-9e55-0a1b2c3d4e5f")).UserSign
      = some XChar ∧
    (NewGame (bytes "---------") XChar (bytes "3f2b8c1e-7d4a-4c19-9e55-0a1b2c3d4e5f")).id
      = bytes "af2b8c1e-7d4a-4c19-9e55-0a1b2c3d4e5f" :=
  ⟨(NewGame_spec (bytes "---------") (bytes "3f2b8c1e-7d4a-4c19-9e55-0a1b2c3d4e5f") XChar
      (Or.inl rfl) (by decide)).2.2.2.2.2.2.1, by decide⟩

/-! ## `CheckWin` -/

theorem coords_perm : coords.Perm winningLines := by decide

theorem coords_bound : ∀ c ∈ coords, c.1 < 9 ∧ c.2.1 < 9 ∧ c.2.2 < 9 := by decide

theorem CheckWin.lineIs_eq (board : List Nat) (s : Nat) (c : Nat × Nat × Nat)
    (h : c.1 < board.length ∧ c.2.1 < board.length ∧ c.2.2 < board.length) :
    CheckWin.lineIs board s c = some (decide (holdsLine board s c)) := by
  obtain ⟨h1, h2, h3⟩ := h
  simp only [CheckWin.lineIs, holdsLine, List.getElem?_eq_getElem h1,
    List.getElem?_eq_getElem h2, List.getElem?_eq_getElem h3, Option.some.injEq]
  by_cases e1 : board[c.1] = s <;> by_cases e2 : board[c.2.1] = s <;> simp [e1, e2]

theorem CheckWin.lines_eq (board : List Nat) (s : Nat) (hs : s = XChar ∨ s = OChar)
    (cs : List (Nat × Nat × Nat))
    (h : ∀ c ∈ cs, c.1 < board.length ∧ c.2.1 < board.length ∧ c.2.2 < board.length) :
    CheckWin.lines board s cs
      = some (if ∃ c ∈ cs, holdsLine board s c then some (if s = XChar then XWON else OWON)
          else none) := by
  induction cs with
  | nil => simp [CheckWin.lines]
  | cons c rest ih =>
    have hc := h c (List.mem_cons_self c rest)
    have hrest := ih (fun d hd => h d (List.mem_cons_of_mem c hd))
    have hex : (∃ d ∈ c :: rest, holdsLine board s d)
        ↔ holdsLine board s c ∨ ∃ d ∈ rest, holdsLine board s d := by
      constructor
      · rintro ⟨d, hd, hl⟩
        rcases List.mem_cons.mp hd with rfl | hd
        · exact Or.inl hl
        · exact Or.inr ⟨d, hd, hl⟩
      · rintro (hl | ⟨d, hd, hl⟩)
        · exact ⟨c, List.mem_cons_self c rest, hl⟩
        · exact ⟨d, List.mem_cons_of_mem c hd, hl⟩
    rw [CheckWin.lines, CheckWin.lineIs_eq board s c hc]
    by_cases hl : holdsLine board s c
    · rcases hs with hs | hs <;> subst hs <;> simp [hl]
    · simp only [hl, decide_False, hrest, hex, false_or]

theorem CheckWin.numDash_eq (board : List Nat) (n i : Nat) (h : i + n ≤ board.length) :
    CheckWin.numDash board i n = some (decide (DashChar ∈ (board.drop i).take n)) := by
  induction n generalizing i with
  | zero => simp [CheckWin.numDash]
  | succ n ih =>
    have hi : i < board.length := by omega
    rw [CheckWin.numDash, List.getElem?_eq_getElem hi, List.drop_eq_getElem_cons hi,
      List.take_succ_cons]
    by_cases hd : board[i] = DashChar
    · simp [hd]
    · have hd' : ¬ DashChar = board[i] := fun e => hd e.symm
      simp [hd, hd', ih (i + 1) (by omega)]

/-- The value of `CheckWin` on a nine-cell board, for a sign `X` or `O`. -/
theorem CheckWin_eq (g : Game) (s : Nat) (hlen : g.board.length = 9)
    (hs : s = XChar ∨ s = OChar) :
    g.CheckWin s =
      if threeInARow g.board s then
        some ({ g with status := if s = XChar then XWON else OWON },
          if s = XChar then XWON else OWON)
      else if DashChar ∈ g.board then some (g, RUNNING)
      else some ({ g with status := DRAW }, DRAW) := by
  have hb : ∀ c ∈ coords,
      c.1 < g.board.length ∧ c.2.1 < g.board.length ∧ c.2.2 < g.board.length := by
    rw [hlen]; exact coords_bound
  have hex : (∃ c ∈ coords, holdsLine g.board s c) ↔ threeInARow g.board s := by
    unfold threeInARow
    constructor
    · rintro ⟨c, hc, hl⟩; exact ⟨c, coords_perm.mem_iff.mp hc, hl⟩
    · rintro ⟨c, hc, hl⟩; exact ⟨c, coords_perm.mem_iff.mpr hc, hl⟩
  have htake : (g.board.drop 0).take 9 = g.board := by
    rw [List.drop_zero, ← hlen, List.take_length]
  rw [Game.CheckWin, CheckWin.lines_eq g.board s hs coords hb,
    CheckWin.numDash_eq g.board 9 0 (by omega), htake]
  by_cases h3 : threeInARow g.board s
  · simp [h3, hex]
  · by_cases hd : DashChar ∈ g.board <;> simp [h3, hex, hd]

/-- C2: on a nine-cell board and for a sign `X` or `O`, `CheckWin` returns and sets
the win status of the sign when one of the eight lines holds the sign in its three
cells; otherwise it returns and sets DRAW when no cell is `'-'`; otherwise it returns
RUNNING and leaves the status as it was. The board and the id are never changed. -/
theorem CheckWin_spec (g : Game) (s : Nat) (hlen : g.board.length = 9)
    (hs : s = XChar ∨ s = OChar) :
    ∃ g' r, g.CheckWin s = some (g', r) ∧ g'.board = g.board ∧ g'.id = g.id ∧
      (threeInARow g.board s →
        (s = XChar → r = XWON) ∧ (s = OChar → r = OWON) ∧ g'.status = r) ∧
      (¬ threeInARow g.board s → DashChar ∉ g.board → r = DRAW ∧ g'.status = DRAW) ∧
      (¬ threeInARow g.board s → DashChar ∈ g.board →
        r = RUNNING ∧ g'.status = g.status) := by
  rw [CheckWin_eq g s hlen hs]
  by_cases h3 : threeInARow g.board s
  · refine ⟨{ g with status := if s = XChar then XWON else OWON },
      if s = XChar then XWON else OWON, by rw [if_pos h3], rfl, rfl, ?_,
      fun h => absurd h3 h, fun h => absurd h3 h⟩
    intro _
    rcases hs with hs | hs <;> subst hs <;> simp
  · by_cases hd : DashChar ∈ g.board
    · exact ⟨g, RUNNING, by rw [if_neg h3, if_pos hd], rfl, rfl, fun h => absurd h h3,
        fun _ h => absurd hd h, fun _ _ => ⟨rfl, rfl⟩⟩
    · exact ⟨{ g with status := DRAW }, DRAW, by rw [if_neg h3, if_neg hd], rfl, rfl,
        fun h => absurd h h3, fun _ _ => ⟨rfl, rfl⟩, fun _ h => absurd h hd⟩

theorem CheckWin_spec_witness :
    Game.CheckWin ⟨bytes "a", bytes "X-OXX-XOO", RUNNING⟩ XChar
      = some (⟨bytes "a", bytes "X-OXX-XOO", XWON⟩, XWON) := by
  obtain ⟨g', r, h, hb, hid, hwin, _, _⟩ :=
    CheckWin_spec ⟨bytes "a", bytes "X-OXX-XOO", RUNNING⟩ XChar (by decide) (Or.inl rfl)
  have h3 : threeInARow (bytes "X-OXX-XOO") XChar := ⟨(0, 3, 6), by decide, by decide⟩
  obtain ⟨hx, _, hst⟩ := hwin h3
  have hr : r = XWON := hx rfl
  have hg : g' = ⟨bytes "a", bytes "X-OXX-XOO", XWON⟩ := by
    cases g'
    simp only [Game.mk.injEq]
    exact ⟨hid, hb, hst.trans hr⟩
  rw [h, hg, hr]

theorem RUNNING_not_terminal : ¬ terminal RUNNING := by decide

/-- C7, as the claim states it, fails: after `CheckWin(X)` on `"XXX------"` has set
X_WON, `CheckWin(O)` on the same record returns RUNNING, not X_WON; and on a record
with status X_WON whose board also holds an `O` line, `CheckWin(O)` overwrites the
status with O_WON. -/
theorem CheckWin_terminal_counterexample :
    Game.CheckWin ⟨bytes "a", bytes "XXX------", RUNNING⟩ XChar
      = some (⟨bytes "a", bytes "XXX------", XWON⟩, XWON) ∧
    Game.CheckWin ⟨bytes "a", bytes "XXX------", XWON⟩ OChar
      = some (⟨bytes "a", bytes "XXX------", XWON⟩, RUNNING) ∧
    Game.CheckWin ⟨bytes "a", bytes "XXXOOO---", XWON⟩ OChar
      = some (⟨bytes "a", bytes "XXXOOO---", OWON⟩, OWON) ∧
    ¬ (∀ (g : Game) (s : Nat), g.board.length = 9 → terminal g.status →
        s = XChar ∨ s = OChar → g.CheckWin s = some (g, g.status)) := by
  refine ⟨by decide, by decide, by decide, fun h => ?_⟩
  have := h ⟨bytes "a", bytes "XXX------", XWON⟩ OChar (by decide) (by decide) (Or.inr rfl)
  revert this
  decide

/-- C7, amended: on a nine-cell board whose record has a terminal status, a further
`CheckWin` call with a sign `X` or `O` leaves the stored status terminal (it never
becomes RUNNING); the record is untouched when the call returns RUNNING, and the
stored status is the returned value when that value is not RUNNING. The returned value
does not depend on the stored status, and repeating the call with the same sign
returns the same value and changes nothing. -/
theorem CheckWin_terminal_amended (g : Game) (s : Nat) (hlen : g.board.length = 9)
    (hs : s = XChar ∨ s = OChar) (hterm : terminal g.status) :
    ∃ g' r, g.CheckWin s = some (g', r) ∧ terminal g'.status ∧ g'.status ≠ RUNNING ∧
      (r = RUNNING → g' = g) ∧ (r ≠ RUNNING → terminal r ∧ g'.status = r) ∧
      g'.CheckWin s = some (g', r) ∧
      (∀ st, ∃ g'', Game.CheckWin { g with status := st } s = some (g'', r)) := by
  have hne : ∀ st, terminal st → st ≠ RUNNING := by
    intro st h e
    rw [e] at h
    exact RUNNING_not_terminal h
  have hst : ∀ st, Game.CheckWin { g with status := st } s =
      if threeInARow g.board s then
        some ({ g with status := if s = XChar then XWON else OWON },
          if s = XChar then XWON else OWON)
      else if DashChar ∈ g.board then some ({ g with status := st }, RUNNING)
      else some ({ g with status := DRAW }, DRAW) := fun st =>
    CheckWin_eq { g with status := st } s hlen hs
  have hwin : terminal (if s = XChar then XWON else OWON) := by
    rcases hs with hs | hs <;> subst hs <;> decide
  by_cases h3 : threeInARow g.board s
  · refine ⟨{ g with status := if s = XChar then XWON else OWON },
      if s = XChar then XWON else OWON, ?_, hwin, hne _ hwin, ?_, fun _ => ⟨hwin, rfl⟩, ?_, ?_⟩
    · rw [CheckWin_eq g s hlen hs, if_pos h3]
    · intro h; exact absurd h (hne _ hwin)
    · rw [hst, if_pos h3]
    · intro st; exact ⟨_, by rw [hst, if_pos h3]⟩
  · by_cases hd : DashChar ∈ g.board
    · refine ⟨g, RUNNING, ?_, hterm, hne _ hterm, fun _ => rfl, fun h => absurd rfl h, ?_, ?_⟩
      · rw [CheckWin_eq g s hlen hs, if_neg h3, if_pos hd]
      · rw [CheckWin_eq g s hlen hs, if_neg h3, if_pos hd]
      · intro st; exact ⟨_, by rw [hst, if_neg h3, if_pos hd]⟩
    · have hdraw : terminal DRAW := by decide
      refine ⟨{ g with status := DRAW }, DRAW, ?_, hdraw, hne _ hdraw,
        fun h => absurd h (hne _ hdraw), fun _ => ⟨hdraw, rfl⟩, ?_, ?_⟩
      · rw [CheckWin_eq g s hlen hs, if_neg h3, if_neg hd]
      · rw [hst, if_neg h3, if_neg hd]
      · intro st; exact ⟨_, by rw [hst, if_neg h3, if_neg hd]⟩

theorem CheckWin_terminal_amended_witness :
    ∃ g' r, Game.CheckWin ⟨bytes "a", bytes "XXX------", XWON⟩ OChar = some (g', r)
      ∧ g'.status ≠ RUNNING :=
  let ⟨g', r, h, _, hne, _⟩ :=
    CheckWin_terminal_amended ⟨bytes "a", bytes "XXX------", XWON⟩ OChar (by decide)
      (Or.inr rfl) (by decide)
  ⟨g', r, h, hne⟩

/-! ## `MakeMove` -/

theorem MakeMove.loop_spec (compSign : Nat) (board perm : List Nat)
    (hb : ∀ idx ∈ perm, idx < board.length)
    (hd : ∃ idx ∈ perm, board[idx]? = some DashChar) :
    ∃ i ∈ perm, board[i]? = some DashChar ∧
      MakeMove.loop compSign perm board = some (board.set i compSign) := by
  induction perm with
  | nil => simp at hd
  | cons idx rest ih =>
    have hidx := hb idx (List.mem_cons_self idx rest)
    by_cases hc : board[idx] = DashChar
    · refine ⟨idx, List.mem_cons_self idx rest, ?_, ?_⟩
      · rw [List.getElem?_eq_getElem hidx, hc]
      · rw [MakeMove.loop, List.getElem?_eq_getElem hidx]
        simp [hc]
    · have hrest : ∃ j ∈ rest, board[j]? = some DashChar := by
        obtain ⟨j, hj, hjd⟩ := hd
        rcases List.mem_cons.mp hj with rfl | hj
        · rw [List.getElem?_eq_getElem hidx] at hjd
          exact absurd (Option.some.inj hjd) hc
        · exact ⟨j, hj, hjd⟩
      obtain ⟨i, hi, hid, hloop⟩ := ih (fun j hj => hb j (List.mem_cons_of_mem idx hj)) hrest
      refine ⟨i, List.mem_cons_of_mem idx hi, hid, ?_⟩
      rw [MakeMove.loop, List.getElem?_eq_getElem hidx]
      simp [hc, hloop]

/-- C6: on a nine-cell board with at least one `'-'` cell, for every permutation of
`0..8` drawn by the random source, `MakeMove` changes exactly one cell: that cell held
`'-'` before and holds the computer's sign after, which is `CompSign` of the record and
differs from `UserSign`; all other cells, the id and the status are unchanged. -/
theorem MakeMove_spec (g : Game) (perm : List Nat) (hlen : g.board.length = 9)
    (hdash : DashChar ∈ g.board) (hperm : perm.Perm (List.range 9)) (hid : g.id ≠ []) :
    ∃ g' comp i, g.MakeMove perm = some g' ∧ g.CompSign = some comp ∧
      g.UserSign ≠ some comp ∧ (comp = XChar ∨ comp = OChar) ∧
      i < 9 ∧ g.board[i]? = some DashChar ∧ g'.board[i]? = some comp ∧
      (∀ j, j ≠ i → g'.board[j]? = g.board[j]?) ∧
      g'.board.length = 9 ∧ g'.id = g.id ∧ g'.status = g.status := by
  have hb : ∀ idx ∈ perm, idx < g.board.length := by
    intro idx h
    rw [hlen]
    exact List.mem_range.mp (hperm.mem_iff.mp h)
  have hd : ∃ idx ∈ perm, g.board[idx]? = some DashChar := by
    obtain ⟨j, hj, hjd⟩ := List.getElem_of_mem hdash
    refine ⟨j, hperm.mem_iff.mpr (List.mem_range.mpr (by omega)), ?_⟩
    rw [List.getElem?_eq_getElem hj, hjd]
  obtain ⟨c, rest, hc⟩ := List.exists_cons_of_ne_nil hid
  have key : ∀ comp : Nat, ∃ i ∈ perm, g.board[i]? = some DashChar ∧
      MakeMove.loop comp perm g.board = some (g.board.set i comp) :=
    fun comp => MakeMove.loop_spec comp g.board perm hb hd
  by_cases h97 : c = 97
  · obtain ⟨i, hi, hid', hloop⟩ := key OChar
    refine ⟨{ g with board := g.board.set i OChar }, OChar, i, ?_, ?_, ?_, Or.inr rfl, ?_, hid',
      ?_, ?_, ?_, rfl, rfl⟩
    · simp [Game.MakeMove, Game.UserSign, hc, h97, hloop]
    · simp [Game.CompSign, hc, h97]
    · simp [Game.UserSign, hc, h97]
    · have := hb i hi; omega
    · have := hb i hi; simp [List.getElem?_set, this]
    · intro j hj; simp [List.getElem?_set, Ne.symm hj]
    · simp [hlen]
  · obtain ⟨i, hi, hid', hloop⟩ := key XChar
    refine ⟨{ g with board := g.board.set i XChar }, XChar, i, ?_, ?_, ?_, Or.inl rfl, ?_, hid',
      ?_, ?_, ?_, rfl, rfl⟩
    · simp [Game.MakeMove, Game.UserSign, hc, h97, hloop]
    · simp [Game.CompSign, hc, h97]
    · simp [Game.UserSign, hc, h97]
    · have := hb i hi; omega
    · have := hb i hi; simp [List.getElem?_set, this]
    · intro j hj; simp [List.getElem?_set, Ne.symm hj]
    · simp [hlen]

theorem MakeMove_spec_witness :
    ∃ g' comp i,
      Game.MakeMove ⟨bytes "a", bytes "X-OXX-XOO", RUNNING⟩ [5, 3, 1, 0, 2, 4, 6, 7, 8] = some g'
      ∧ i < 9 ∧ g'.board[i]? = some comp ∧ g'.status = RUNNING :=
  let ⟨g', comp, i, h, _, _, _, hi, _, hc, _, _, _, hst⟩ :=
    MakeMove_spec ⟨bytes "a", bytes "X-OXX-XOO", RUNNING⟩ [5, 3, 1, 0, 2, 4, 6, 7, 8]
      (by decide) (by decide) (by decide) (by decide)
  ⟨g', comp, i, h, hi, hc, hst⟩

/-! ## `SetNewBoard` -/

theorem SetNewBoard.loop_eq (board newBoard : List Nat) (n i sum : Nat)
    (hb : i + n ≤ board.length) (hn : i + n ≤ newBoard.length) :
    SetNewBoard.loop board newBoard i n sum =
      if ∀ c ∈ (newBoard.drop i).take n, validCell c then
        some (.ok (sum + xorSum ((board.drop i).take n) ((newBoard.drop i).take n)))
      else some (.error (NewGameError StatusBadRequest "board contains invalid chars" [])) := by
  induction n generalizing i sum with
  | zero => simp [SetNewBoard.loop, xorSum]
  | succ n ih =>
    have hi : i < board.length := by omega
    have hj : i < newBoard.length := by omega
    rw [SetNewBoard.loop, List.getElem?_eq_getElem hj, List.getElem?_eq_getElem hi,
      List.drop_eq_getElem_cons hj, List.drop_eq_getElem_cons hi, List.take_succ_cons,
      List.take_succ_cons]
    by_cases hv : validCell newBoard[i]
    · have hv' : newBoard[i] = DashChar ∨ newBoard[i] = XChar ∨ newBoard[i] = OChar := hv
      simp only [hv', if_true, ih (i + 1) (sum + (board[i] ^^^ newBoard[i])) (by omega) (by omega),
        List.forall_mem_cons, hv, true_and]
      by_cases hall : ∀ c ∈ List.take n (List.drop (i + 1) newBoard), validCell c
      · simp [hall, xorSum, Nat.add_assoc]
      · simp [hall]
    · have hv' : ¬ (newBoard[i] = DashChar ∨ newBoard[i] = XChar ∨ newBoard[i] = OChar) := hv
      simp only [hv', if_false, List.forall_mem_cons, hv, false_and]

theorem SetNewBoard.correctMove_eq (g : Game) (sum u : Nat) (hu : g.UserSign = some u) :
    SetNewBoard.correctMove g sum
      = some (decide ((sum = UserSetX ∧ u = XChar) ∨ (sum = UserSetO ∧ u = OChar))) := by
  unfold SetNewBoard.correctMove
  rw [hu]
  by_cases h1 : sum = UserSetX
  · subst h1
    by_cases h2 : u = XChar <;> simp [h2]
  · by_cases h2 : sum = UserSetO <;> simp [h1, h2]

theorem UserSign_of_ne_nil (g : Game) (hid : g.id ≠ []) :
    ∃ u, g.UserSign = some u ∧ (u = XChar ∨ u = OChar) := by
  obtain ⟨c, rest, hc⟩ := List.exists_cons_of_ne_nil hid
  by_cases h97 : c = 97
  · exact ⟨XChar, by simp [Game.UserSign, hc, h97], Or.inl rfl⟩
  · exact ⟨OChar, by simp [Game.UserSign, hc, h97], Or.inr rfl⟩

/-- The value of `SetNewBoard` on a record with a nine-cell board and a non-empty id. -/
theorem SetNewBoard_eq (g : Game) (newBoard : List Nat) (u : Nat)
    (hlen : g.board.length = 9) (hu : g.UserSign = some u) :
    g.SetNewBoard newBoard =
      if newBoard.length = 9 then
        if ∀ c ∈ newBoard, validCell c then
          if (xorSum g.board newBoard = UserSetX ∧ u = XChar)
              ∨ (xorSum g.board newBoard = UserSetO ∧ u = OChar) then
            some ({ g with board := newBoard }, true, none)
          else some (g, false, some (NewGameError StatusBadRequest "move not valid" []))
        else
          some (g, false, some (NewGameError StatusBadRequest "board contains invalid chars" []))
      else some (g, false, some (NewGameError StatusBadRequest "invalid board length" [])) := by
  unfold Game.SetNewBoard
  by_cases hn : newBoard.length = 9
  · have h1 : (g.board.drop 0).take 9 = g.board := by
      rw [List.drop_zero, ← hlen, List.take_length]
    have h2 : (newBoard.drop 0).take 9 = newBoard := by
      rw [List.drop_zero, ← hn, List.take_length]
    have hn' : ¬ newBoard.length ≠ 9 := fun h => h hn
    rw [SetNewBoard.loop_eq g.board newBoard 9 0 0 (by omega) (by omega), h1, h2,
      if_neg hn', if_pos hn]
    by_cases hv : ∀ c ∈ newBoard, validCell c
    · rw [if_pos hv, if_pos hv]
      simp only [Nat.zero_add, SetNewBoard.correctMove_eq g _ u hu]
      by_cases hm : (xorSum g.board newBoard = UserSetX ∧ u = XChar)
          ∨ (xorSum g.board newBoard = UserSetO ∧ u = OChar)
      · rw [if_pos hm, decide_eq_true hm]
      · rw [if_neg hm, decide_eq_false hm]
    · rw [if_neg hv, if_neg hv]
  · have hn' : newBoard.length ≠ 9 := hn
    rw [if_pos hn', if_neg hn]

/-- C4: on a record with a nine-cell board, a submitted board of a length other than 9
or with a byte outside the three symbols makes `SetNewBoard` return `false` with an
error of status 400 and the record untouched; and whenever the id is not empty the call
returns, its error is nil exactly when the flag is `true`, and every error it returns
has status 400. -/
theorem SetNewBoard_errors (g : Game) (newBoard : List Nat) (hlen : g.board.length = 9) :
    ((newBoard.length ≠ 9 ∨ ∃ c ∈ newBoard, ¬ validCell c) →
      ∃ e, g.SetNewBoard newBoard = some (g, false, some e) ∧ e.Status = StatusBadRequest) ∧
    (g.id ≠ [] → ∃ g' ok err, g.SetNewBoard newBoard = some (g', ok, err) ∧
      (err = none ↔ ok = true) ∧ (∀ e, err = some e → e.Status = StatusBadRequest)) := by
  constructor
  · intro hbad
    unfold Game.SetNewBoard
    by_cases hn : newBoard.length = 9
    · have hv : ¬ ∀ c ∈ newBoard, validCell c := by
        rcases hbad with h | ⟨c, hc, hcv⟩
        · exact absurd hn h
        · exact fun h => hcv (h c hc)
      have h2 : (newBoard.drop 0).take 9 = newBoard := by
        rw [List.drop_zero, ← hn, List.take_length]
      have hn' : ¬ newBoard.length ≠ 9 := fun h => h hn
      rw [SetNewBoard.loop_eq g.board newBoard 9 0 0 (by omega) (by omega), h2, if_neg hn',
        if_neg hv]
      exact ⟨NewGameError StatusBadRequest "board contains invalid chars" [], rfl, rfl⟩
    · have hn' : newBoard.length ≠ 9 := hn
      rw [if_pos hn']
      exact ⟨NewGameError StatusBadRequest "invalid board length" [], rfl, rfl⟩
  · intro hid
    obtain ⟨u, hu, _⟩ := UserSign_of_ne_nil g hid
    rw [SetNewBoard_eq g newBoard u hlen hu]
    by_cases hn : newBoard.length = 9
    · by_cases hv : ∀ c ∈ newBoard, validCell c
      · by_cases hm : (xorSum g.board newBoard = UserSetX ∧ u = XChar)
            ∨ (xorSum g.board newBoard = UserSetO ∧ u = OChar)
        · exact ⟨{ g with board := newBoard }, true, none, by rw [if_pos hn, if_pos hv, if_pos hm],
            by simp, by simp⟩
        · exact ⟨g, false, some (NewGameError StatusBadRequest "move not valid" []),
            by rw [if_pos hn, if_pos hv, if_neg hm], by simp, by intro e he; cases he; rfl⟩
      · exact ⟨g, false,
          some (NewGameError StatusBadRequest "board contains invalid chars" []),
          by rw [if_pos hn, if_neg hv], by simp, by intro e he; cases he; rfl⟩
    · exact ⟨g, false, some (NewGameError StatusBadRequest "invalid board length" []),
        by rw [if_neg hn], by simp, by intro e he; cases he; rfl⟩

theorem SetNewBoard_errors_witness :
    (∃ e, Game.SetNewBoard ⟨bytes "a", bytes "---------", RUNNING⟩ (bytes "---=-----")
        = some (⟨bytes "a", bytes "---------", RUNNING⟩, false, some e)
      ∧ e.Status = StatusBadRequest) :=
  (SetNewBoard_errors ⟨bytes "a", bytes "---------", RUNNING⟩ (bytes "---=-----")
    (by decide)).1 (Or.inr ⟨61, by decide, by decide⟩)

/-- C5: on a record with a nine-cell board and a non-empty id, `SetNewBoard` returns;
it never changes the id or the status; when it returns `false` the board of the record
is what it was before the call, and when it returns `true` the board of the record is
the submitted board. -/
theorem SetNewBoard_frame (g : Game) (newBoard : List Nat) (hlen : g.board.length = 9)
    (hid : g.id ≠ []) :
    ∃ g' ok err, g.SetNewBoard newBoard = some (g', ok, err) ∧
      g'.id = g.id ∧ g'.status = g.status ∧
      (ok = false → g'.board = g.board) ∧ (ok = true → g'.board = newBoard) := by
  obtain ⟨u, hu, _⟩ := UserSign_of_ne_nil g hid
  rw [SetNewBoard_eq g newBoard u hlen hu]
  by_cases hn : newBoard.length = 9
  · by_cases hv : ∀ c ∈ newBoard, validCell c
    · by_cases hm : (xorSum g.board newBoard = UserSetX ∧ u = XChar)
          ∨ (xorSum g.board newBoard = UserSetO ∧ u = OChar)
      · exact ⟨{ g with board := newBoard }, true, none,
          by rw [if_pos hn, if_pos hv, if_pos hm], rfl, rfl, by simp, fun _ => rfl⟩
      · exact ⟨g, false, some (NewGameError StatusBadRequest "move not valid" []),
          by rw [if_pos hn, if_pos hv, if_neg hm], rfl, rfl, fun _ => rfl, by simp⟩
    · exact ⟨g, false, some (NewGameError StatusBadRequest "board contains invalid chars" []),
        by rw [if_pos hn, if_neg hv], rfl, rfl, fun _ => rfl, by simp⟩
  · exact ⟨g, false, some (NewGameError StatusBadRequest "invalid board length" []),
      by rw [if_neg hn], rfl, rfl, fun _ => rfl, by simp⟩

theorem SetNewBoard_frame_witness :
    ∃ g' ok err,
      Game.SetNewBoard ⟨bytes "a", bytes "O--------", RUNNING⟩ (bytes "OX-------")
        = some (g', ok, err) ∧ g'.id = bytes "a" ∧ g'.status = RUNNING :=
  let ⟨g', ok, err, h, h1, h2, _⟩ :=
    SetNewBoard_frame ⟨bytes "a", bytes "O--------", RUNNING⟩ (bytes "OX-------")
      (by decide) (by decide)
  ⟨g', ok, err, h, h1, h2⟩

/-- C1, the failing input: the human plays `X` (the id starts with `'a'`), the record
holds `"XO-------"`, and the submitted board `"-O-------"` takes the human's own `X`
back. No cell goes from `'-'` to `X`, yet `SetNewBoard` accepts and stores the board,
because the xor of the changed cell is the same in both directions. -/
theorem SetNewBoard_accepts_erasure :
    Game.SetNewBoard
        ⟨bytes "af2b8c1e-7d4a-4c19-9e55-0a1b2c3d4e5f", bytes "XO-------", RUNNING⟩
        (bytes "-O-------")
      = some (⟨bytes "af2b8c1e-7d4a-4c19-9e55-0a1b2c3d4e5f", bytes "-O-------", RUNNING⟩,
          true, none) := by
  decide

/-! ## `Marshal` and `Unmarshal` -/

theorem span_append_of (p : Nat → Bool) (q : Nat) (s rest : List Nat)
    (h : ∀ c ∈ s, p c = true) (hq : p q = false) :
    (s ++ q :: rest).span p = (s, q :: rest) := by
  rw [List.span_eq_take_drop]
  induction s with
  | nil => simp [List.takeWhile_cons, List.dropWhile_cons, hq]
  | cons a l ih =>
    have ha : p a = true := h a (List.mem_cons_self a l)
    have hl := ih (fun c hc => h c (List.mem_cons_of_mem a hc))
    simp only [Prod.mk.injEq] at hl
    simp only [List.cons_append, List.takeWhile_cons, List.dropWhile_cons, ha, if_true, hl.1,
      hl.2]

theorem span_all_of (p : Nat → Bool) (s : List Nat) (h : ∀ c ∈ s, p c = true) :
    s.span p = (s, []) := by
  rw [List.span_eq_take_drop]
  induction s with
  | nil => simp
  | cons a l ih =>
    have ha : p a = true := h a (List.mem_cons_self a l)
    have hl := ih (fun c hc => h c (List.mem_cons_of_mem a hc))
    simp only [Prod.mk.injEq] at hl
    simp only [List.takeWhile_cons, List.dropWhile_cons, ha, if_true, hl.1, hl.2]

theorem span_ne_append (q : Nat) (s rest : List Nat) (h : ∀ c ∈ s, c ≠ q) :
    (s ++ q :: rest).span (· ≠ q) = (s, q :: rest) :=
  span_append_of _ q s rest (fun c hc => decide_eq_true (h c hc)) (by simp)

theorem span_ne_all (q : Nat) (s : List Nat) (h : ∀ c ∈ s, c ≠ q) :
    s.span (· ≠ q) = (s, []) :=
  span_all_of _ s (fun c hc => decide_eq_true (h c hc))

theorem fastjson.trailingBackslashes_plain (s : List Nat) (h : plain s) :
    fastjson.trailingBackslashes s = 0 := by
  unfold fastjson.trailingBackslashes
  cases hr : s.reverse with
  | nil => simp
  | cons a l =>
    have ha : a ∈ s := by
      rw [← List.mem_reverse, hr]
      exact List.mem_cons_self a l
    have : a ≠ 92 := (h a ha).2
    simp [List.takeWhile_cons, this]

theorem fastjson.parseRawString_plain (s rest : List Nat) (h : plain s) :
    fastjson.parseRawString (s ++ 34 :: rest) = .ok (s, rest) := by
  unfold fastjson.parseRawString
  rw [fastjson.parseRawString.loop, span_ne_append 34 s rest (fun c hc => (h c hc).1)]
  simp [fastjson.trailingBackslashes_plain s h]

theorem fastjson.unescape_plain (s : List Nat) (h : plain s) :
    fastjson.unescapeStringBestEffort s = s := by
  unfold fastjson.unescapeStringBestEffort
  rw [span_ne_all 92 s (fun c hc => (h c hc).2)]

theorem fastjson.skipWS_cons (c : Nat) (rest : List Nat) (h : fastjson.isWS c = false) :
    fastjson.skipWS (c :: rest) = c :: rest := by
  simp [fastjson.skipWS, List.dropWhile_cons, h]

theorem fastjson.parseValue_string (d : Nat) (val rest : List Nat) (h : plain val) :
    fastjson.parseValue (d + 1) (34 :: (val ++ 34 :: rest)) = .ok (.string val, rest) := by
  rw [fastjson.parseValue]
  simp [fastjson.parseRawString_plain val rest h]

/-- One member `"key":"val"` of an object, followed by a comma or by the closing
brace. -/
theorem fastjson.parseObject_member (d fuel sep : Nat) (acc : List (List Nat × fastjson.Value))
    (key val rest : List Nat) (hk : plain key) (hv : plain val)
    (hsep : sep = 44 ∨ sep = 125) :
    fastjson.parseObject.loop (fastjson.parseValue (d + 1)) (fuel + 1) acc
        (34 :: (key ++ 34 :: 58 :: 34 :: (val ++ 34 :: sep :: rest))) =
      if sep = 44 then
        fastjson.parseObject.loop (fastjson.parseValue (d + 1)) fuel
          (acc ++ [(key, .string val)]) rest
      else .ok (.object (acc ++ [(key, .string val)]), rest) := by
  have hws : fastjson.isWS sep = false := by
    rcases hsep with h | h <;> subst h <;> decide
  rw [fastjson.parseObject.loop, fastjson.skipWS_cons 34 _ (by decide)]
  simp only [ne_eq, not_true_eq_false, if_false, fastjson.parseRawString_plain key _ hk,
    fastjson.skipWS_cons 58 _ (by decide), fastjson.skipWS_cons 34 _ (by decide),
    fastjson.parseValue_string d val _ hv, fastjson.skipWS_cons sep _ hws]
  rcases hsep with h | h <;> subst h <;> simp

theorem Marshal_eq (g : Game) :
    g.Marshal = 123 :: 34 :: (bytes "id" ++ 34 :: 58 :: 34 :: (g.id ++ 34 :: 44 ::
      34 :: (bytes "board" ++ 34 :: 58 :: 34 :: (g.board ++ 34 :: 44 ::
      34 :: (bytes "status" ++ 34 :: 58 :: 34 :: (g.status ++ 34 :: 125 :: [])))))) := by
  have h1 : bytes "\x7b\"id\":\"" = 123 :: 34 :: (bytes "id" ++ [34, 58, 34]) := by decide
  have h2 : bytes "\",\"board\":\"" = 34 :: 44 :: 34 :: (bytes "board" ++ [34, 58, 34]) := by
    decide
  have h3 : bytes "\",\"status\":\"" = 34 :: 44 :: 34 :: (bytes "status" ++ [34, 58, 34]) := by
    decide
  have h4 : bytes "\"\x7d" = [34, 125] := by decide
  rw [Game.Marshal, h1, h2, h3, h4]
  simp only [List.append_assoc, List.cons_append, List.nil_append]

/-- The parser reads the text of `Marshal` as the flat object of the three string
fields, when none of them holds a quote or a backslash. -/
theorem ParseBytes_Marshal (g : Game) (hid : plain g.id) (hb : plain g.board)
    (hs : plain g.status) :
    fastjson.ParseBytes g.Marshal =
      .ok (.object [(bytes "id", .string g.id), (bytes "board", .string g.board),
        (bytes "status", .string g.status)]) := by
  rw [Marshal_eq]
  generalize hrest : (34 :: (bytes "id" ++ 34 :: 58 :: 34 :: (g.id ++ 34 :: 44 ::
      34 :: (bytes "board" ++ 34 :: 58 :: 34 :: (g.board ++ 34 :: 44 ::
      34 :: (bytes "status" ++ 34 :: 58 :: 34 :: (g.status ++ 34 :: 125 :: []))))))) = rest
  obtain ⟨n, hn⟩ : ∃ n, rest.length + 1 = n + 1 + 1 + 1 := by
    refine ⟨rest.length - 2, ?_⟩
    have : 2 ≤ rest.length := by
      rw [← hrest]
      simp [bytes]
    omega
  have hobj : fastjson.parseObject (fastjson.parseValue (298 + 1)) rest =
      .ok (.object [(bytes "id", .string g.id), (bytes "board", .string g.board),
        (bytes "status", .string g.status)], []) := by
    have hsk : fastjson.skipWS rest = rest := by
      rw [← hrest]
      exact fastjson.skipWS_cons 34 _ (by decide)
    have hstep : fastjson.parseObject (fastjson.parseValue (298 + 1)) rest =
        fastjson.parseObject.loop (fastjson.parseValue (298 + 1)) (rest.length + 1) [] rest := by
      unfold fastjson.parseObject
      rw [hsk, ← hrest]
      simp
    rw [hstep, hn, ← hrest,
      fastjson.parseObject_member 298 (n + 1 + 1) 44 [] (bytes "id") g.id _ (by decide) hid
        (Or.inl rfl),
      if_pos rfl,
      fastjson.parseObject_member 298 (n + 1) 44 _ (bytes "board") g.board _ (by decide) hb
        (Or.inl rfl),
      if_pos rfl,
      fastjson.parseObject_member 298 n 125 _ (bytes "status") g.status _ (by decide) hs
        (Or.inr rfl),
      if_neg (by decide)]
    rfl
  unfold fastjson.ParseBytes
  rw [fastjson.skipWS_cons 123 _ (by decide)]
  have hv : fastjson.parseValue fastjson.MaxDepth (123 :: rest) =
      fastjson.parseObject (fastjson.parseValue (298 + 1)) rest := by
    show fastjson.parseValue (299 + 1) (123 :: rest) = _
    rw [fastjson.parseValue]
    simp
  rw [hv, hobj]
  rfl

/-- The round trip of a record whose fields hold no quote and no backslash. -/
theorem Unmarshal_Marshal (g : Game) (hid : plain g.id) (hb : plain g.board)
    (hs : plain g.status) : Unmarshal g.Marshal = .ok g := by
  unfold Unmarshal
  rw [ParseBytes_Marshal g hid hb hs]
  have h1 : (fastjson.Value.object [(bytes "id", .string g.id), (bytes "board", .string g.board),
      (bytes "status", .string g.status)]).GetStringBytes (bytes "id") = g.id := by
    have : (fastjson.Value.object [(bytes "id", .string g.id), (bytes "board", .string g.board),
        (bytes "status", .string g.status)]).Get (bytes "id") = some (.string g.id) := by
      simp [fastjson.Value.Get, bytes]
    simp only [fastjson.Value.GetStringBytes, this, fastjson.unescape_plain g.id hid]
  have h2 : (fastjson.Value.object [(bytes "id", .string g.id), (bytes "board", .string g.board),
      (bytes "status", .string g.status)]).GetStringBytes (bytes "board") = g.board := by
    have : (fastjson.Value.object [(bytes "id", .string g.id), (bytes "board", .string g.board),
        (bytes "status", .string g.status)]).Get (bytes "board") = some (.string g.board) := by
      simp [fastjson.Value.Get, bytes]
    simp only [fastjson.Value.GetStringBytes, this, fastjson.unescape_plain g.board hb]
  have h3 : (fastjson.Value.object [(bytes "id", .string g.id), (bytes "board", .string g.board),
      (bytes "status", .string g.status)]).GetStringBytes (bytes "status") = g.status := by
    have : (fastjson.Value.object [(bytes "id", .string g.id), (bytes "board", .string g.board),
        (bytes "status", .string g.status)]).Get (bytes "status") = some (.string g.status) := by
      simp [fastjson.Value.Get, bytes]
    simp only [fastjson.Value.GetStringBytes, this, fastjson.unescape_plain g.status hs]
  simp only [h1, h2, h3]

theorem plain_of_validId (id : List Nat) (h : IsValidGameId id = true) : plain id := by
  simp only [IsValidGameId, decide_eq_true_eq] at h
  intro c hc
  have := h.2 c hc
  constructor <;> omega

theorem plain_of_validCells (board : List Nat) (h : ∀ c ∈ board, validCell c) : plain board := by
  intro c hc
  rcases h c hc with e | e | e <;> subst e <;> decide

theorem plain_of_status (status : List Nat) (h : status = RUNNING ∨ terminal status) :
    plain status := by
  rcases h with e | e | e | e <;> subst e <;> decide

theorem status_length_le (status : List Nat) (h : status = RUNNING ∨ terminal status) :
    status.length ≤ 7 := by
  rcases h with e | e | e | e <;> subst e <;> decide

theorem length_of_validId (id : List Nat) (h : IsValidGameId id = true) : id.length = 36 := by
  simp only [IsValidGameId, decide_eq_true_eq] at h
  exact h.1

theorem Marshal_length (g : Game) (hid : g.id.length = 36) (hlen : g.board.length = 9) :
    g.Marshal.length = 77 + g.status.length := by
  have e1 : (bytes "id").length = 2 := by decide
  have e2 : (bytes "board").length = 5 := by decide
  have e3 : (bytes "status").length = 6 := by decide
  rw [Marshal_eq]
  simp only [List.length_cons, List.length_append, List.length_nil, hid, hlen, e1, e2, e3]
  omega

/-- C9: for a record with a valid 36-character id, a nine-cell board over the three
symbols and one of the four statuses, the text of `Marshal` parses as the flat object
with exactly the three string fields `id`, `board` and `status`, in this order and with
the values of the record, and `Unmarshal` of that text succeeds and returns the same
record. -/
theorem Marshal_roundtrip (g : Game) (hid : IsValidGameId g.id = true)
    (hlen : g.board.length = 9) (hcells : ∀ c ∈ g.board, validCell c)
    (hstatus : g.status = RUNNING ∨ terminal g.status) :
    fastjson.ParseBytes g.Marshal =
      .ok (.object [(bytes "id", .string g.id), (bytes "board", .string g.board),
        (bytes "status", .string g.status)]) ∧
    Unmarshal g.Marshal = .ok g ∧
    g.Marshal.length = 77 + g.status.length :=
  ⟨ParseBytes_Marshal g (plain_of_validId g.id hid) (plain_of_validCells g.board hcells)
      (plain_of_status g.status hstatus),
    Unmarshal_Marshal g (plain_of_validId g.id hid) (plain_of_validCells g.board hcells)
      (plain_of_status g.status hstatus),
    Marshal_length g (length_of_validId g.id hid) hlen⟩

theorem Marshal_roundtrip_witness :
    Unmarshal (Game.Marshal
        ⟨bytes "af2b8c1e-7d4a-4c19-9e55-0a1b2c3d4e5f", bytes "XOX-O----", OWON⟩)
      = .ok ⟨bytes "af2b8c1e-7d4a-4c19-9e55-0a1b2c3d4e5f", bytes "XOX-O----", OWON⟩ :=
  (Marshal_roundtrip ⟨bytes "af2b8c1e-7d4a-4c19-9e55-0a1b2c3d4e5f", bytes "XOX-O----", OWON⟩
    (by decide) (by decide) (by decide) (by decide)).2.1

/-! ## The store: `Save` followed by `Get` -/

theorem Files.content_withFile (disk : Files) (fname data : List Nat) :
    (disk.withFile fname data).content fname = some data := by
  simp [Files.withFile, Files.content]

theorem Files.content_without_ne (disk : Files) (fname other : List Nat) (h : fname ≠ other) :
    (disk.without other).content fname = disk.content fname := by
  induction disk with
  | nil => rfl
  | cons e rest ih =>
    by_cases h1 : e.1 = other
    · have h2 : ¬ e.1 = fname := fun h' => h (h'.symm.trans h1)
      rw [Files.without, if_pos h1, Files.content, if_neg h2]
      exact ih
    · rw [Files.without, if_neg h1]
      by_cases h2 : e.1 = fname
      · rw [Files.content, if_pos h2, Files.content, if_pos h2]
      · rw [Files.content, if_neg h2, Files.content, if_neg h2]
        exact ih

theorem ne_append_backupExt (fname : List Nat) : fname ≠ fname ++ backupExt := by
  intro h
  have := congrArg List.length h
  simp [backupExt, bytes] at this

theorem RWMutex.RUnlock_RLock (m m1 : RWMutex) (h : m.RLock = some m1) : m1.RUnlock = m := by
  unfold RWMutex.RLock at h
  split at h
  · cases h
  · cases h
    simp [RWMutex.RUnlock]

theorem RWMutex.Lock_eq (m m1 : RWMutex) (h : m.Lock = some m1) :
    m.writer = false ∧ m.readers = 0 ∧ m1.Unlock = m := by
  unfold RWMutex.Lock at h
  split at h
  · cases h
  · rename_i hc
    cases h
    have hw : m.writer = false := by
      cases hm : m.writer
      · rfl
      · exact absurd (Or.inl hm) hc
    have hr : m.readers = 0 := by
      by_contra hne
      exact hc (Or.inr hne)
    refine ⟨hw, hr, ?_⟩
    cases m
    simp only [RWMutex.Unlock] at hw ⊢
    simp [hw]

/-- The last two steps of `Save`, when they end without an error: the lock is free and
the file of the game holds the text of the record. -/
theorem Save.write_ok (s s' : StorageFile) (game : Game) (fname : List Nat)
    (removeBackup : Bool) (f : Faults)
    (h : Save.write s game fname removeBackup f = .returns none s') :
    s'.path = s.path ∧ s'.rwm = s.rwm ∧ s'.rwm.writer = false ∧ s'.rwm.readers = 0 ∧
      s'.disk.content fname = some game.Marshal := by
  unfold Save.write at h
  cases hL : s.rwm.Lock with
  | none => rw [hL] at h; cases h
  | some m =>
    obtain ⟨hw, hr, hu⟩ := RWMutex.Lock_eq s.rwm m hL
    rw [hL] at h
    cases hwf : f.write with
    | cannotOpen => simp [osWriteFile, hwf] at h
    | short n => simp [osWriteFile, hwf] at h
    | none =>
      simp only [osWriteFile, hwf] at h
      cases removeBackup with
      | false =>
        simp only [Bool.false_eq_true, if_false, Outcome.returns.injEq, true_and] at h
        subst h
        exact ⟨rfl, hu, by rw [hu]; exact hw, by rw [hu]; exact hr,
          Files.content_withFile _ _ _⟩
      | true =>
        simp only [if_true] at h
        have hL2 : m.Unlock.Lock = some m := by rw [hu]; exact hL
        rw [hL2] at h
        cases hrm : osRemove (s.disk.withFile fname game.Marshal) (fname ++ backupExt) f with
        | error e =>
          rw [hrm] at h
          simp only [Outcome.returns.injEq, true_and] at h
          subst h
          exact ⟨rfl, hu, by rw [hu]; exact hw, by rw [hu]; exact hr,
            Files.content_withFile _ _ _⟩
        | ok d2 =>
          rw [hrm] at h
          simp only [Outcome.returns.injEq, true_and] at h
          subst h
          refine ⟨rfl, hu, by rw [hu]; exact hw, by rw [hu]; exact hr, ?_⟩
          unfold osRemove at hrm
          split at hrm
          · cases hrm
          · split at hrm
            · cases hrm
            · cases hrm
              show ((s.disk.withFile fname game.Marshal).without (fname ++ backupExt)).content
                fname = _
              rw [Files.content_without_ne _ _ _ (ne_append_backupExt fname)]
              exact Files.content_withFile _ _ _

/-- A `Save` that returns no error leaves the lock free and the text of the record in
the file of the game. -/
theorem Save_ok (s s' : StorageFile) (game : Game) (f : Faults)
    (h : s.Save game f = .returns none s') :
    s'.path = s.path ∧ s'.rwm = s.rwm ∧ s'.rwm.writer = false ∧ s'.rwm.readers = 0 ∧
      s'.disk.content (s.path ++ bytes "/" ++ game.id) = some game.Marshal := by
  unfold StorageFile.Save StorageFile.IsGameExists at h
  cases hR : s.rwm.RLock with
  | none => rw [hR] at h; cases h
  | some m =>
    have hru := RWMutex.RUnlock_RLock s.rwm m hR
    have hs : ({ s with rwm := m.RUnlock } : StorageFile) = s := by rw [hru]
    rw [hR] at h
    cases hst : osStat s.disk (s.path ++ bytes "/" ++ game.id) f with
    | error e =>
      simp only [hst, hs, Bool.false_eq_true, if_false] at h
      exact Save.write_ok s s' game _ false f h
    | ok size =>
      simp only [hst, hs, if_true] at h
      cases hL : s.rwm.Lock with
      | none => rw [hL] at h; cases h
      | some m1 =>
        obtain ⟨hw, hr, hu⟩ := RWMutex.Lock_eq s.rwm m1 hL
        rw [hL] at h
        cases hrn : osRename s.disk (s.path ++ bytes "/" ++ game.id)
            (s.path ++ bytes "/" ++ game.id ++ backupExt) f with
        | error e => rw [hrn] at h; simp at h
        | ok d =>
          rw [hrn] at h
          simp only [hu] at h
          have := Save.write_ok _ s' game _ true f h
          exact this

/-- After a `Save` that returned no error, a `Get` of the id that meets no failure of
the operating system returns the saved record and leaves the store as it is. -/
theorem Get_after_Save (s s' : StorageFile) (g : Game) (f f' : Faults)
    (hid : IsValidGameId g.id = true) (hlen : g.board.length = 9)
    (hcells : ∀ c ∈ g.board, validCell c) (hstatus : g.status = RUNNING ∨ terminal g.status)
    (hsave : s.Save g f = .returns none s') (hstat : f'.stat = false)
    (hread : f'.read = false) :
    s'.Get g.id f' = .returns (.ok g) s' := by
  obtain ⟨hpath, _, hw, _, hcontent⟩ := Save_ok s s' g f hsave
  rw [← hpath] at hcontent
  have hround := Unmarshal_Marshal g (plain_of_validId g.id hid)
    (plain_of_validCells g.board hcells) (plain_of_status g.status hstatus)
  have hsize := Marshal_length g (length_of_validId g.id hid) hlen
  have hle := status_length_le g.status hstatus
  have hR : s'.rwm.RLock = some { s'.rwm with readers := s'.rwm.readers + 1 } := by
    simp [RWMutex.RLock, hw]
  have hru := RWMutex.RUnlock_RLock _ _ hR
  have hraw : s'.GetRaw g.id f' = .returns (.ok g.Marshal) s' := by
    unfold StorageFile.GetRaw
    rw [hR]
    simp only [osStat, hstat, Bool.false_eq_true, if_false, hcontent, osReadFile, hread]
    have hnot : ¬ g.Marshal.length > maxFileSize := by
      rw [hsize]
      show ¬ (77 + g.status.length > 512)
      omega
    rw [if_neg hnot, hru]
  unfold StorageFile.Get
  rw [hraw]
  have hne : ¬ g.Marshal.length = 0 := by rw [hsize]; omega
  simp only [hne, if_false, hround]

/-! ## `SetNewBoard`: the boards that are accepted -/

theorem xorSum_cons (a b : Nat) (as bs : List Nat) :
    xorSum (a :: as) (b :: bs) = (a ^^^ b) + xorSum as bs := by
  simp [xorSum]

theorem cell_xor (a b : Nat) (ha : validCell a) (hb : validCell b) :
    (a ^^^ b = 0 ∧ a = b) ∨
    (a ^^^ b = 117 ∧ a ≠ b ∧ ((a = 45 ∧ b = 88) ∨ (a = 88 ∧ b = 45))) ∨
    (a ^^^ b = 98 ∧ a ≠ b ∧ ((a = 45 ∧ b = 79) ∨ (a = 79 ∧ b = 45))) ∨
    (a ^^^ b = 23 ∧ a ≠ b ∧ ((a = 88 ∧ b = 79) ∨ (a = 79 ∧ b = 88))) := by
  rcases ha with ha | ha | ha <;> rcases hb with hb | hb | hb <;> subst ha <;> subst hb <;>
    decide

theorem xorSum_repr (old new : List Nat) (ho : ∀ c ∈ old, validCell c)
    (hn : ∀ c ∈ new, validCell c) :
    ∃ a b c, xorSum old new = 117 * a + 98 * b + 23 * c := by
  induction old generalizing new with
  | nil => exact ⟨0, 0, 0, by simp [xorSum]⟩
  | cons x xs ih =>
    cases new with
    | nil => exact ⟨0, 0, 0, by simp [xorSum]⟩
    | cons y ys =>
      obtain ⟨a, b, c, h⟩ := ih ys (fun c hc => ho c (List.mem_cons_of_mem x hc))
        (fun c hc => hn c (List.mem_cons_of_mem y hc))
      rw [xorSum_cons, h]
      rcases cell_xor x y (ho x (List.mem_cons_self x xs)) (hn y (List.mem_cons_self y ys))
        with ⟨e, _⟩ | ⟨e, _⟩ | ⟨e, _⟩ | ⟨e, _⟩ <;> rw [e]
      · exact ⟨a, b, c, by omega⟩
      · exact ⟨a + 1, b, c, by omega⟩
      · exact ⟨a, b + 1, c, by omega⟩
      · exact ⟨a, b, c + 1, by omega⟩

theorem xorSum_zero_iff (old new : List Nat) (hlen : old.length = new.length)
    (ho : ∀ c ∈ old, validCell c) (hn : ∀ c ∈ new, validCell c) :
    xorSum old new = 0 ↔ old = new := by
  induction old generalizing new with
  | nil =>
    cases new with
    | nil => simp [xorSum]
    | cons y ys => simp at hlen
  | cons x xs ih =>
    cases new with
    | nil => simp at hlen
    | cons y ys =>
      have hi := ih ys (by simpa using hlen) (fun c hc => ho c (List.mem_cons_of_mem x hc))
        (fun c hc => hn c (List.mem_cons_of_mem y hc))
      rw [xorSum_cons]
      rcases cell_xor x y (ho x (List.mem_cons_self x xs)) (hn y (List.mem_cons_self y ys))
        with ⟨e, h⟩ | ⟨e, h, _⟩ | ⟨e, h, _⟩ | ⟨e, h, _⟩ <;> rw [e]
      · subst h
        rw [Nat.zero_add, hi]
        simp
      · constructor
        · intro h0; omega
        · intro h0; exact absurd (List.cons.inj h0).1 h
      · constructor
        · intro h0; omega
        · intro h0; exact absurd (List.cons.inj h0).1 h
      · constructor
        · intro h0; omega
        · intro h0; exact absurd (List.cons.inj h0).1 h

theorem oneCellChanged_cons (P : Nat → Nat → Prop) (a b : Nat) (as bs : List Nat) :
    oneCellChanged (a :: as) (b :: bs) P ↔
      (as = bs ∧ a ≠ b ∧ P a b) ∨ (a = b ∧ oneCellChanged as bs P) := by
  constructor
  · rintro ⟨pre, post, x, y, h1, h2, hne, hp⟩
    cases pre with
    | nil =>
      simp only [List.nil_append, List.cons.injEq] at h1 h2
      obtain ⟨rfl, rfl⟩ := h1
      obtain ⟨rfl, rfl⟩ := h2
      exact Or.inl ⟨rfl, hne, hp⟩
    | cons p pre =>
      simp only [List.cons_append, List.cons.injEq] at h1 h2
      obtain ⟨rfl, h1⟩ := h1
      obtain ⟨rfl, h2⟩ := h2
      exact Or.inr ⟨rfl, pre, post, x, y, h1, h2, hne, hp⟩
  · rintro (⟨rfl, hne, hp⟩ | ⟨rfl, pre, post, x, y, h1, h2, hne, hp⟩)
    · exact ⟨[], as, a, b, rfl, rfl, hne, hp⟩
    · exact ⟨a :: pre, post, x, y, by rw [h1]; rfl, by rw [h2]; rfl, hne, hp⟩

theorem oneCellChanged_nil (P : Nat → Nat → Prop) (new : List Nat) :
    ¬ oneCellChanged [] new P := by
  rintro ⟨pre, post, x, y, h1, _⟩
  cases pre <;> simp at h1

/-- The checksum equals `'-' xor 'X'` exactly when one cell differs, between `'-'` and
`'X'` in either direction. -/
theorem xorSum_eq_UserSetX (old new : List Nat) (hlen : old.length = new.length)
    (ho : ∀ c ∈ old, validCell c) (hn : ∀ c ∈ new, validCell c) :
    xorSum old new = 117 ↔
      oneCellChanged old new (fun x y => (x = 45 ∧ y = 88) ∨ (x = 88 ∧ y = 45)) := by
  induction old generalizing new with
  | nil =>
    cases new with
    | nil => simp [xorSum, oneCellChanged_nil]
    | cons y ys => simp at hlen
  | cons x xs ih =>
    cases new with
    | nil => simp at hlen
    | cons y ys =>
      have hox : ∀ c ∈ xs, validCell c := fun c hc => ho c (List.mem_cons_of_mem x hc)
      have hny : ∀ c ∈ ys, validCell c := fun c hc => hn c (List.mem_cons_of_mem y hc)
      have hl : xs.length = ys.length := by simpa using hlen
      have hi := ih ys hl hox hny
      have hz := xorSum_zero_iff xs ys hl hox hny
      obtain ⟨a, b, c, hr⟩ := xorSum_repr xs ys hox hny
      rw [xorSum_cons, oneCellChanged_cons]
      rcases cell_xor x y (ho x (List.mem_cons_self x xs)) (hn y (List.mem_cons_self y ys))
        with ⟨e, h⟩ | ⟨e, h, hp⟩ | ⟨e, h, hp⟩ | ⟨e, h, hp⟩ <;> rw [e]
      · subst h
        rw [Nat.zero_add, hi]
        simp
      · constructor
        · intro h0
          have : xorSum xs ys = 0 := by omega
          exact Or.inl ⟨hz.mp this, h, hp⟩
        · rintro (⟨h1, _, _⟩ | ⟨h1, _⟩)
          · rw [hz.mpr h1]
          · exact absurd h1 h
      · constructor
        · intro h0
          exfalso
          have h1 : a = 0 := by omega
          have h2 : b = 0 := by omega
          omega
        · rintro (⟨_, _, hq⟩ | ⟨h1, _⟩)
          · rcases hp with ⟨rfl, rfl⟩ | ⟨rfl, rfl⟩ <;> simp at hq
          · exact absurd h1 h
      · constructor
        · intro h0
          exfalso
          have h1 : a = 0 := by omega
          have h2 : b = 0 := by omega
          omega
        · rintro (⟨_, _, hq⟩ | ⟨h1, _⟩)
          · rcases hp with ⟨rfl, rfl⟩ | ⟨rfl, rfl⟩ <;> simp at hq
          · exact absurd h1 h

/-- The checksum equals `'-' xor 'O'` exactly when one cell differs, between `'-'` and
`'O'` in either direction. -/
theorem xorSum_eq_UserSetO (old new : List Nat) (hlen : old.length = new.length)
    (ho : ∀ c ∈ old, validCell c) (hn : ∀ c ∈ new, validCell c) :
    xorSum old new = 98 ↔
      oneCellChanged old new (fun x y => (x = 45 ∧ y = 79) ∨ (x = 79 ∧ y = 45)) := by
  induction old generalizing new with
  | nil =>
    cases new with
    | nil => simp [xorSum, oneCellChanged_nil]
    | cons y ys => simp at hlen
  | cons x xs ih =>
    cases new with
    | nil => simp at hlen
    | cons y ys =>
      have hox : ∀ c ∈ xs, validCell c := fun c hc => ho c (List.mem_cons_of_mem x hc)
      have hny : ∀ c ∈ ys, validCell c := fun c hc => hn c (List.mem_cons_of_mem y hc)
      have hl : xs.length = ys.length := by simpa using hlen
      have hi := ih ys hl hox hny
      have hz := xorSum_zero_iff xs ys hl hox hny
      obtain ⟨a, b, c, hr⟩ := xorSum_repr xs ys hox hny
      rw [xorSum_cons, oneCellChanged_cons]
      rcases cell_xor x y (ho x (List.mem_cons_self x xs)) (hn y (List.mem_cons_self y ys))
        with ⟨e, h⟩ | ⟨e, h, hp⟩ | ⟨e, h, hp⟩ | ⟨e, h, hp⟩ <;> rw [e]
      · subst h
        rw [Nat.zero_add, hi]
        simp
      · constructor
        · intro h0
          exfalso
          have h1 : a = 0 := by omega
          have h2 : b = 0 := by omega
          omega
        · rintro (⟨_, _, hq⟩ | ⟨h1, _⟩)
          · rcases hp with ⟨rfl, rfl⟩ | ⟨rfl, rfl⟩ <;> simp at hq
          · exact absurd h1 h
      · constructor
        · intro h0
          have : xorSum xs ys = 0 := by omega
          exact Or.inl ⟨hz.mp this, h, hp⟩
        · rintro (⟨h1, _, _⟩ | ⟨h1, _⟩)
          · rw [hz.mpr h1]
          · exact absurd h1 h
      · constructor
        · intro h0
          exfalso
          have h1 : a = 0 := by omega
          have h2 : b = 0 := by omega
          omega
        · rintro (⟨_, _, hq⟩ | ⟨h1, _⟩)
          · rcases hp with ⟨rfl, rfl⟩ | ⟨rfl, rfl⟩ <;> simp at hq
          · exact absurd h1 h

/-- What `SetNewBoard` accepts: on nine-cell boards over the three symbols, the flag
is `true` exactly when the boards differ in one cell and that cell changes between
`'-'` and the human's sign, in either direction. -/
theorem SetNewBoard_accepts_iff (g : Game) (newBoard : List Nat) (u : Nat)
    (hlen : g.board.length = 9) (hcells : ∀ c ∈ g.board, validCell c)
    (hn : newBoard.length = 9) (hv : ∀ c ∈ newBoard, validCell c)
    (hu : g.UserSign = some u) :
    (∃ g' err, g.SetNewBoard newBoard = some (g', true, err)) ↔
      oneCellChanged g.board newBoard
        (fun x y => (x = DashChar ∧ y = u) ∨ (x = u ∧ y = DashChar)) := by
  have hl : g.board.length = newBoard.length := by rw [hlen, hn]
  have hX := xorSum_eq_UserSetX g.board newBoard hl hcells hv
  have hO := xorSum_eq_UserSetO g.board newBoard hl hcells hv
  have hu' : u = XChar ∨ u = OChar := by
    unfold Game.UserSign at hu
    split at hu
    · cases hu
    · split at hu <;> cases hu
      · exact Or.inl rfl
      · exact Or.inr rfl
  rw [SetNewBoard_eq g newBoard u hlen hu, if_pos hn, if_pos hv]
  by_cases hm : (xorSum g.board newBoard = UserSetX ∧ u = XChar)
      ∨ (xorSum g.board newBoard = UserSetO ∧ u = OChar)
  · rw [if_pos hm]
    refine ⟨fun _ => ?_, fun _ => ⟨_, _, rfl⟩⟩
    rcases hm with ⟨h1, h2⟩ | ⟨h1, h2⟩
    · subst h2; exact hX.mp h1
    · subst h2; exact hO.mp h1
  · rw [if_neg hm]
    constructor
    · rintro ⟨g', err, h⟩
      simp at h
    · intro h
      exfalso
      rcases hu' with h2 | h2
      · subst h2; exact hm (Or.inl ⟨hX.mpr h, rfl⟩)
      · subst h2; exact hm (Or.inr ⟨hO.mpr h, rfl⟩)

/-! ## `CheckWin` on the full board `"XOXOXOXXO"` -/

/-- C13, as the claim states it, fails: on the board `"XOXOXOXXO"` the cells 2, 4 and 6
of the diagonal all hold `X`, and `CheckWin(X)` returns X_WON, not DRAW. -/
theorem CheckWin_full_board_counterexample :
    threeInARow (bytes "XOXOXOXXO") XChar ∧
    Game.CheckWin ⟨bytes "af2b8c1e-7d4a-4c19-9e55-0a1b2c3d4e5f", bytes "XOXOXOXXO", RUNNING⟩ XChar
      = some (⟨bytes "af2b8c1e-7d4a-4c19-9e55-0a1b2c3d4e5f", bytes "XOXOXOXXO", XWON⟩, XWON) ∧
    XWON ≠ DRAW := by
  refine ⟨⟨(2, 4, 6), by decide, by decide⟩, by decide, by decide⟩

/-- C13, amended: for every record whose board is `"XOXOXOXXO"` (no empty cell),
`CheckWin` returns and sets X_WON when queried with sign `X`, whose three cells 2, 4, 6
form a diagonal, and returns and sets DRAW when queried with sign `O`, which has no
line. -/
theorem CheckWin_full_board (id status : List Nat) :
    Game.CheckWin ⟨id, bytes "XOXOXOXXO", status⟩ XChar
      = some (⟨id, bytes "XOXOXOXXO", XWON⟩, XWON) ∧
    Game.CheckWin ⟨id, bytes "XOXOXOXXO", status⟩ OChar
      = some (⟨id, bytes "XOXOXOXXO", DRAW⟩, DRAW) ∧
    ¬ threeInARow (bytes "XOXOXOXXO") OChar ∧ DashChar ∉ bytes "XOXOXOXXO" := by
  have hx : threeInARow (bytes "XOXOXOXXO") XChar := ⟨(2, 4, 6), by decide, by decide⟩
  have ho : ¬ threeInARow (bytes "XOXOXOXXO") OChar := by decide
  have hd : DashChar ∉ bytes "XOXOXOXXO" := by decide
  have hl : (bytes "XOXOXOXXO").length = 9 := by decide
  refine ⟨?_, ?_, ho, hd⟩
  · rw [CheckWin_eq _ XChar hl (Or.inl rfl), if_pos hx]
    rfl
  · rw [CheckWin_eq _ OChar hl (Or.inr rfl), if_neg ho, if_neg hd]

/-! ## The store: the lock around each operation -/

theorem RWMutex.RLock_of_free (m : RWMutex) (hw : m.writer = false) :
    m.RLock = some { m with readers := m.readers + 1 } := by
  simp [RWMutex.RLock, hw]

theorem RWMutex.RLock_writer (m m1 : RWMutex) (h : m.RLock = some m1) :
    m.writer = false ∧ m1 = { m with readers := m.readers + 1 } := by
  unfold RWMutex.RLock at h
  split at h
  · cases h
  · rename_i hw
    cases h
    exact ⟨by simpa using hw, rfl⟩

theorem RWMutex.Lock_of_free (m : RWMutex) (hw : m.writer = false) (hr : m.readers = 0) :
    m.Lock = some { m with writer := true } := by
  simp [RWMutex.Lock, hw, hr]

theorem RWMutex.Lock_of_reader (m : RWMutex) (hr : m.readers ≠ 0) : m.Lock = none := by
  simp [RWMutex.Lock, hr]

/-- The value of `IsGameExists` when the write lock is not held: the store is left as
it was. -/
theorem IsGameExists_eq (s : StorageFile) (gameId : List Nat) (f : Faults)
    (hw : s.rwm.writer = false) :
    s.IsGameExists gameId f =
      match osStat s.disk (s.path ++ bytes "/" ++ gameId) f with
      | .ok _ => .returns (true, none) s
      | .error err => .returns (false, some err) s := by
  have hru := RWMutex.RUnlock_RLock _ _ (RWMutex.RLock_of_free s.rwm hw)
  unfold StorageFile.IsGameExists
  rw [RWMutex.RLock_of_free s.rwm hw]
  simp only [hru]

/-- `IsGameExists` releases the read lock on every return. -/
theorem IsGameExists_lock (s s' : StorageFile) (gameId : List Nat) (f : Faults)
    (v : Bool × Option StatError) (h : s.IsGameExists gameId f = .returns v s') : s' = s := by
  cases hR : s.rwm.RLock with
  | none => simp [StorageFile.IsGameExists, hR] at h
  | some m =>
    have hw := (RWMutex.RLock_writer _ _ hR).1
    rw [IsGameExists_eq s gameId f hw] at h
    split at h <;> cases h <;> rfl

/-- `GetRaw` releases the read lock when it returns the content. -/
theorem GetRaw_lock_ok (s s' : StorageFile) (gameId content : List Nat) (f : Faults)
    (h : s.GetRaw gameId f = .returns (.ok content) s') : s' = s := by
  unfold StorageFile.GetRaw at h
  cases hR : s.rwm.RLock with
  | none => rw [hR] at h; cases h
  | some m =>
    have hru := RWMutex.RUnlock_RLock _ _ hR
    rw [hR] at h
    simp only at h
    split at h
    · split at h
      · cases h
      · split at h
        · cases h
        · cases h
          rw [hru]
    · cases h
    · cases h

/-- `GetRaw` on an id without a file, when the write lock is not held and `os.Stat`
works: the error has status 404, the files are untouched, and the read lock that the
call took is still held when it returns. -/
theorem GetRaw_missing (s : StorageFile) (gameId : List Nat) (f : Faults)
    (hw : s.rwm.writer = false)
    (hmiss : s.disk.content (s.path ++ bytes "/" ++ gameId) = none) (hstat : f.stat = false) :
    s.GetRaw gameId f =
      .returns
        (.error (NewGameError StatusNotFound "game not exists" [StatError.notExist.Error]))
        { s with rwm := { s.rwm with readers := s.rwm.readers + 1 } } := by
  unfold StorageFile.GetRaw
  rw [RWMutex.RLock_of_free s.rwm hw]
  simp only [osStat, hstat, hmiss, Bool.false_eq_true, if_false]

/-- `GetRaw` on a file larger than `maxFileSize`: the read lock is still held when the
call returns. -/
theorem GetRaw_too_large (s : StorageFile) (gameId content : List Nat) (f : Faults)
    (hw : s.rwm.writer = false)
    (hfile : s.disk.content (s.path ++ bytes "/" ++ gameId) = some content)
    (hsize : maxFileSize < content.length) (hstat : f.stat = false) :
    s.GetRaw gameId f =
      .returns (.error (NewGameError StatusInternalServerError "game file too large" []))
        { s with rwm := { s.rwm with readers := s.rwm.readers + 1 } } := by
  unfold StorageFile.GetRaw
  rw [RWMutex.RLock_of_free s.rwm hw]
  simp only [osStat, hstat, hfile, Bool.false_eq_true, if_false]
  rw [if_pos hsize]

/-- The last two steps of `Save` leave the lock as they found it. -/
theorem Save.write_lock (s s' : StorageFile) (game : Game) (fname : List Nat)
    (removeBackup : Bool) (f : Faults) (e : Option GameError)
    (h : Save.write s game fname removeBackup f = .returns e s') :
    s'.rwm = s.rwm ∧ s'.path = s.path := by
  unfold Save.write at h
  cases hL : s.rwm.Lock with
  | none => rw [hL] at h; cases h
  | some m =>
    obtain ⟨_, _, hu⟩ := RWMutex.Lock_eq s.rwm m hL
    have hL2 : m.Unlock.Lock = some m := by rw [hu]; exact hL
    rw [hL] at h
    simp only [hL2] at h
    split at h
    · cases h
      exact ⟨hu, rfl⟩
    · split at h
      · split at h <;> cases h <;> exact ⟨hu, rfl⟩
      · cases h
        exact ⟨hu, rfl⟩

/-- `Save` leaves the lock as it found it on every return. -/
theorem Save_lock (s s' : StorageFile) (game : Game) (f : Faults) (e : Option GameError)
    (h : s.Save game f = .returns e s') : s'.rwm = s.rwm ∧ s'.path = s.path := by
  unfold StorageFile.Save at h
  cases hI : s.IsGameExists game.id f with
  | blocks => rw [hI] at h; cases h
  | returns v s1 =>
    have hs1 := IsGameExists_lock s s1 game.id f v hI
    subst hs1
    rw [hI] at h
    obtain ⟨ok, err⟩ := v
    cases ok with
    | false =>
      simp only [Bool.false_eq_true, if_false] at h
      exact Save.write_lock _ _ _ _ _ _ _ h
    | true =>
      simp only [if_true] at h
      cases hL : s1.rwm.Lock with
      | none => rw [hL] at h; cases h
      | some m =>
        obtain ⟨_, _, hu⟩ := RWMutex.Lock_eq s1.rwm m hL
        rw [hL] at h
        simp only [hu] at h
        split at h
        · cases h
          exact ⟨rfl, rfl⟩
        · have h2 := Save.write_lock _ s' _ _ _ _ _ h
          exact h2

/-- `Delete` leaves the lock as it found it on every return. -/
theorem Delete_lock (s s' : StorageFile) (gameId : List Nat) (f : Faults)
    (e : Option GameError) (h : s.Delete gameId f = .returns e s') :
    s'.rwm = s.rwm ∧ s'.path = s.path := by
  unfold StorageFile.Delete at h
  cases hI : s.IsGameExists gameId f with
  | blocks => rw [hI] at h; cases h
  | returns v s1 =>
    have hs1 := IsGameExists_lock s s1 gameId f v hI
    subst hs1
    rw [hI] at h
    simp only at h
    split at h
    · cases h
      exact ⟨rfl, rfl⟩
    · split at h
      · cases h
        exact ⟨rfl, rfl⟩
      · cases hL : s1.rwm.Lock with
        | none => rw [hL] at h; cases h
        | some m =>
          obtain ⟨_, _, hu⟩ := RWMutex.Lock_eq s1.rwm m hL
          rw [hL] at h
          simp only [hu] at h
          split at h <;> cases h <;> exact ⟨rfl, rfl⟩

/-- A read lock that is still held makes `Save` wait for ever. -/
theorem Save_blocks_of_reader (s : StorageFile) (game : Game) (f : Faults)
    (hr : s.rwm.readers ≠ 0) : s.Save game f = .blocks := by
  unfold StorageFile.Save
  cases hI : s.IsGameExists game.id f with
  | blocks => rfl
  | returns v s1 =>
    have hs1 := IsGameExists_lock s s1 game.id f v hI
    subst hs1
    obtain ⟨ok, err⟩ := v
    cases ok with
    | false =>
      simp only [Bool.false_eq_true, if_false, Save.write, RWMutex.Lock_of_reader _ hr]
    | true =>
      simp only [if_true, RWMutex.Lock_of_reader _ hr]

/-- C14, the failing input: the store holds one record and its lock is free.
`GetRaw` on an id without a record returns the 404 error with the read lock still held
(one reader instead of none), and so do `Get` on that id and `GetRaw` on a stored file
of 513 bytes with its 500 error; in the state that the first call leaves, `Save` and
`Delete` of the stored record wait for the write lock for ever. -/
theorem GetRaw_keeps_read_lock :
    StorageFile.Get
        ⟨bytes "/srv/games", ⟨0, false⟩,
          [(bytes "/srv/games/af2b8c1e-7d4a-4c19-9e55-0a1b2c3d4e5f",
            Game.Marshal ⟨bytes "af2b8c1e-7d4a-4c19-9e55-0a1b2c3d4e5f", bytes "XO-------",
              RUNNING⟩)], []⟩
        (bytes "00000000-0000-0000-0000-000000000000") Faults.none
      = .returns
          (.error (NewGameError StatusNotFound "game not exists" [StatError.notExist.Error]))
          ⟨bytes "/srv/games", ⟨1, false⟩,
            [(bytes "/srv/games/af2b8c1e-7d4a-4c19-9e55-0a1b2c3d4e5f",
              Game.Marshal ⟨bytes "af2b8c1e-7d4a-4c19-9e55-0a1b2c3d4e5f", bytes "XO-------",
                RUNNING⟩)], []⟩ ∧
    StorageFile.GetRaw
        ⟨bytes "/srv/games", ⟨0, false⟩,
          [(bytes "/srv/games/af2b8c1e-7d4a-4c19-9e55-0a1b2c3d4e5f",
            Game.Marshal ⟨bytes "af2b8c1e-7d4a-4c19-9e55-0a1b2c3d4e5f", bytes "XO-------",
              RUNNING⟩)], []⟩
        (bytes "00000000-0000-0000-0000-000000000000") Faults.none
      = .returns
          (.error (NewGameError StatusNotFound "game not exists" [StatError.notExist.Error]))
          ⟨bytes "/srv/games", ⟨1, false⟩,
            [(bytes "/srv/games/af2b8c1e-7d4a-4c19-9e55-0a1b2c3d4e5f",
              Game.Marshal ⟨bytes "af2b8c1e-7d4a-4c19-9e55-0a1b2c3d4e5f", bytes "XO-------",
                RUNNING⟩)], []⟩ ∧
    StorageFile.GetRaw
        ⟨bytes "/srv/games", ⟨0, false⟩,
          [(bytes "/srv/games/af2b8c1e-7d4a-4c19-9e55-0a1b2c3d4e5f", List.replicate 513 48)],
          []⟩
        (bytes "af2b8c1e-7d4a-4c19-9e55-0a1b2c3d4e5f") Faults.none
      = .returns (.error (NewGameError StatusInternalServerError "game file too large" []))
          ⟨bytes "/srv/games", ⟨1, false⟩,
            [(bytes "/srv/games/af2b8c1e-7d4a-4c19-9e55-0a1b2c3d4e5f", List.replicate 513 48)],
            []⟩ ∧
    StorageFile.Save
        ⟨bytes "/srv/games", ⟨1, false⟩,
          [(bytes "/srv/games/af2b8c1e-7d4a-4c19-9e55-0a1b2c3d4e5f",
            Game.Marshal ⟨bytes "af2b8c1e-7d4a-4c19-9e55-0a1b2c3d4e5f", bytes "XO-------",
              RUNNING⟩)], []⟩
        ⟨bytes "af2b8c1e-7d4a-4c19-9e55-0a1b2c3d4e5f", bytes "XOX-O----", RUNNING⟩ Faults.none
      = .blocks ∧
    StorageFile.Delete
        ⟨bytes "/srv/games", ⟨1, false⟩,
          [(bytes "/srv/games/af2b8c1e-7d4a-4c19-9e55-0a1b2c3d4e5f",
            Game.Marshal ⟨bytes "af2b8c1e-7d4a-4c19-9e55-0a1b2c3d4e5f", bytes "XO-------",
              RUNNING⟩)], []⟩
        (bytes "af2b8c1e-7d4a-4c19-9e55-0a1b2c3d4e5f") Faults.none
      = .blocks := by
  refine ⟨rfl, rfl, ?_, rfl, rfl⟩
  exact GetRaw_too_large _ _ (List.replicate 513 48) Faults.none rfl rfl
    (by rw [List.length_replicate]; exact Nat.lt_succ_self 512) rfl

/-! ## The store: `Get` and `Delete` of an id without a record -/

theorem Files.content_without_self (disk : Files) (fname : List Nat) :
    (disk.without fname).content fname = none := by
  induction disk with
  | nil => rfl
  | cons e rest ih =>
    by_cases h1 : e.1 = fname
    · rw [Files.without, if_pos h1]
      exact ih
    · rw [Files.without, if_neg h1, Files.content, if_neg h1]
      exact ih

theorem Files.content_withFile_ne (disk : Files) (fname other data : List Nat)
    (h : fname ≠ other) : (disk.withFile other data).content fname = disk.content fname := by
  have h1 : ¬ other = fname := fun e => h e.symm
  rw [Files.withFile, Files.content, if_neg h1]
  exact Files.content_without_ne disk fname other h

/-- `Get` on an id without a file, when the write lock is not held and `os.Stat`
works: the 404 error of `GetRaw`, in the state that `GetRaw` leaves. -/
theorem Get_missing (s : StorageFile) (gameId : List Nat) (f : Faults)
    (hw : s.rwm.writer = false)
    (hmiss : s.disk.content (s.path ++ bytes "/" ++ gameId) = none) (hstat : f.stat = false) :
    s.Get gameId f =
      .returns
        (.error (NewGameError StatusNotFound "game not exists" [StatError.notExist.Error]))
        { s with rwm := { s.rwm with readers := s.rwm.readers + 1 } } := by
  unfold StorageFile.Get
  rw [GetRaw_missing s gameId f hw hmiss hstat]

/-- `Delete` on an id without a file, when the write lock is not held: the 404 error,
and the store as it was. -/
theorem Delete_missing (s : StorageFile) (gameId : List Nat) (f : Faults)
    (hw : s.rwm.writer = false)
    (hmiss : s.disk.content (s.path ++ bytes "/" ++ gameId) = none) :
    s.Delete gameId f = .returns (some (NewGameError StatusNotFound "game not found" [])) s := by
  unfold StorageFile.Delete
  rw [IsGameExists_eq s gameId f hw]
  cases hf : f.stat
  · simp only [osStat, hf, hmiss, Bool.false_eq_true, if_false, not_false_eq_true, if_true]
  · simp only [osStat, hf, if_true, Bool.false_eq_true, not_false_eq_true]

/-- A `Delete` that returns no error found the file of the id, took the free lock,
removed the file and released the lock. -/
theorem Delete_ok (s s' : StorageFile) (gameId : List Nat) (f : Faults)
    (h : s.Delete gameId f = .returns none s') :
    s.disk.content (s.path ++ bytes "/" ++ gameId) ≠ none ∧
      s' = { s with disk := s.disk.without (s.path ++ bytes "/" ++ gameId) } ∧
      s.rwm.writer = false ∧ s.rwm.readers = 0 := by
  unfold StorageFile.Delete at h
  cases hI : s.IsGameExists gameId f with
  | blocks => rw [hI] at h; cases h
  | returns v s1 =>
    have hs1 := IsGameExists_lock s s1 gameId f v hI
    subst hs1
    rw [hI] at h
    simp only at h
    split at h
    · cases h
    · split at h
      · cases h
      · cases hL : s1.rwm.Lock with
        | none => rw [hL] at h; cases h
        | some m =>
          obtain ⟨hw, hr, hu⟩ := RWMutex.Lock_eq s1.rwm m hL
          rw [hL] at h
          simp only [hu] at h
          cases hrm : osRemove s1.disk (s1.path ++ bytes "/" ++ gameId) f with
          | error e => rw [hrm] at h; simp at h
          | ok d =>
            rw [hrm] at h
            simp only [Outcome.returns.injEq, true_and] at h
            unfold osRemove at hrm
            split at hrm
            · cases hrm
            · split at hrm
              · cases hrm
              · rename_i c hc
                cases hrm
                exact ⟨by rw [hc]; simp, h.symm, hw, hr⟩

/-- C12: for an id at which no record is stored, `Get` (when `os.Stat` works) and
`Delete` return an error of status 404 and leave the stored files as they are, also
when `Delete` follows `Get`; and a `Delete` that returns no error was called on an id
with a record and removes it, so that a following `Get` returns the 404 error; on a
store with a free lock and without a failure of the operating system, `Delete` of a
stored record with a valid id returns no error. The write lock is not held between two
calls. -/
theorem Get_Delete_notFound (s : StorageFile) (gameId : List Nat) (f : Faults) :
    (s.rwm.writer = false → s.disk.content (s.path ++ bytes "/" ++ gameId) = none →
      f.stat = false →
      ∃ e s', s.Get gameId f = .returns (.error e) s' ∧ e.Status = StatusNotFound ∧
        s'.disk = s.disk ∧
        ∃ e2, s'.Delete gameId f = .returns (some e2) s' ∧ e2.Status = StatusNotFound) ∧
    (s.rwm.writer = false → s.disk.content (s.path ++ bytes "/" ++ gameId) = none →
      ∃ e, s.Delete gameId f = .returns (some e) s ∧ e.Status = StatusNotFound) ∧
    (∀ s', s.Delete gameId f = .returns none s' →
      s.disk.content (s.path ++ bytes "/" ++ gameId) ≠ none ∧
      s'.disk.content (s'.path ++ bytes "/" ++ gameId) = none ∧
      ∀ f' : Faults, f'.stat = false →
        ∃ e s'', s'.Get gameId f' = .returns (.error e) s'' ∧ e.Status = StatusNotFound ∧
          s''.disk = s'.disk) ∧
    (s.rwm.writer = false → s.rwm.readers = 0 →
      s.disk.content (s.path ++ bytes "/" ++ gameId) ≠ none → IsValidGameId gameId = true →
      f.stat = false → f.remove = false →
      ∃ s', s.Delete gameId f = .returns none s') := by
  refine ⟨?_, ?_, ?_, ?_⟩
  · intro hw hmiss hstat
    refine ⟨NewGameError StatusNotFound "game not exists" [StatError.notExist.Error],
      { s with rwm := { s.rwm with readers := s.rwm.readers + 1 } },
      Get_missing s gameId f hw hmiss hstat, rfl, rfl,
      NewGameError StatusNotFound "game not found" [], ?_, rfl⟩
    exact Delete_missing _ gameId f hw hmiss
  · intro hw hmiss
    exact ⟨NewGameError StatusNotFound "game not found" [],
      Delete_missing s gameId f hw hmiss, rfl⟩
  · intro s' h
    obtain ⟨hc, hs', hw, _⟩ := Delete_ok s s' gameId f h
    subst hs'
    have hmiss : (s.disk.without (s.path ++ bytes "/" ++ gameId)).content
        (s.path ++ bytes "/" ++ gameId) = none := Files.content_without_self _ _
    refine ⟨hc, hmiss, fun f' hstat => ?_⟩
    exact ⟨NewGameError StatusNotFound "game not exists" [StatError.notExist.Error], _,
      Get_missing _ gameId f' hw hmiss hstat, rfl, rfl⟩
  · intro hw hr hc hv hstat hrem
    obtain ⟨c, hc'⟩ := Option.ne_none_iff_exists'.mp hc
    unfold StorageFile.Delete
    rw [IsGameExists_eq s gameId f hw]
    simp only [osStat, hstat, hc', Bool.false_eq_true, if_false, not_true_eq_false, hv,
      RWMutex.Lock_of_free s.rwm hw hr, osRemove, hrem]
    exact ⟨_, rfl⟩

theorem Get_Delete_notFound_witness :
    (∃ e,
      StorageFile.Delete ⟨bytes "/srv/games", ⟨0, false⟩, [], []⟩
          (bytes "af2b8c1e-7d4a-4c19-9e55-0a1b2c3d4e5f") Faults.none
        = .returns (some e) ⟨bytes "/srv/games", ⟨0, false⟩, [], []⟩
      ∧ e.Status = StatusNotFound) ∧
    (∃ s',
      StorageFile.Delete
          ⟨bytes "/srv/games", ⟨0, false⟩,
            [(bytes "/srv/games/af2b8c1e-7d4a-4c19-9e55-0a1b2c3d4e5f",
              Game.Marshal ⟨bytes "af2b8c1e-7d4a-4c19-9e55-0a1b2c3d4e5f", bytes "XO-------",
                RUNNING⟩)], []⟩
          (bytes "af2b8c1e-7d4a-4c19-9e55-0a1b2c3d4e5f") Faults.none
        = .returns none s') :=
  ⟨(Get_Delete_notFound ⟨bytes "/srv/games", ⟨0, false⟩, [], []⟩
      (bytes "af2b8c1e-7d4a-4c19-9e55-0a1b2c3d4e5f") Faults.none).2.1 rfl rfl,
   (Get_Delete_notFound
      ⟨bytes "/srv/games", ⟨0, false⟩,
        [(bytes "/srv/games/af2b8c1e-7d4a-4c19-9e55-0a1b2c3d4e5f",
          Game.Marshal ⟨bytes "af2b8c1e-7d4a-4c19-9e55-0a1b2c3d4e5f", bytes "XO-------",
            RUNNING⟩)], []⟩
      (bytes "af2b8c1e-7d4a-4c19-9e55-0a1b2c3d4e5f") Faults.none).2.2.2 rfl rfl (by decide)
      (by decide) rfl rfl⟩

/-! ## The store: a failing step of `Save` -/

/-- The last two steps of `Save` on a store with a free lock. -/
theorem Save.write_eq (s : StorageFile) (game : Game) (fname : List Nat) (removeBackup : Bool)
    (f : Faults) (hw : s.rwm.writer = false) (hr : s.rwm.readers = 0) :
    Save.write s game fname removeBackup f =
      match osWriteFile s.disk fname game.Marshal f with
      | (d, some err) =>
        .returns (some (NewGameError StatusInternalServerError "can't write game file" [err]))
          { s with disk := d }
      | (d, none) =>
        if removeBackup then
          match osRemove d (fname ++ backupExt) f with
          | .error err =>
            .returns none
              { s with disk := d,
                       log := s.log ++ [bytes "game " ++ game.id
                         ++ bytes ": can't remove backup file " ++ fname ++ backupExt
                         ++ bytes ": " ++ bytes err] }
          | .ok d2 => .returns none { s with disk := d2 }
        else .returns none { s with disk := d } := by
  have hL := RWMutex.Lock_of_free s.rwm hw hr
  obtain ⟨_, _, hu⟩ := RWMutex.Lock_eq _ _ hL
  unfold Save.write
  rw [hL]
  simp only [hu, hL]

/-- The value of `Save` on a store with a free lock. -/
theorem Save_eq (s : StorageFile) (game : Game) (f : Faults) (hw : s.rwm.writer = false)
    (hr : s.rwm.readers = 0) :
    s.Save game f =
      match osStat s.disk (s.path ++ bytes "/" ++ game.id) f with
      | .ok _ =>
        match osRename s.disk (s.path ++ bytes "/" ++ game.id)
            (s.path ++ bytes "/" ++ game.id ++ backupExt) f with
        | .error err =>
          .returns
            (some (NewGameError StatusInternalServerError "can't create game file backup" [err]))
            s
        | .ok d => Save.write { s with disk := d } game (s.path ++ bytes "/" ++ game.id) true f
      | .error _ => Save.write s game (s.path ++ bytes "/" ++ game.id) false f := by
  have hL := RWMutex.Lock_of_free s.rwm hw hr
  obtain ⟨_, _, hu⟩ := RWMutex.Lock_eq _ _ hL
  unfold StorageFile.Save
  rw [IsGameExists_eq s game.id f hw]
  cases hst : osStat s.disk (s.path ++ bytes "/" ++ game.id) f with
  | error e => simp only [Bool.false_eq_true, if_false]
  | ok size =>
    simp only [if_true, hL, hu]

/-- C11: on a store with a free lock that holds a record at the id, `Save` returns
under every combination of failures of its steps. When the backup was made and the
write fails, `Save` returns an error and the backup file holds the previous content;
when the backup rename fails, `Save` returns an error and the disk is unchanged; when
the rename and the write work, `Save` returns no error also if the backup cannot be
removed, and then the backup still holds the previous content next to the new file.
After every call the primary and the backup are not both missing, and unless `os.Stat`
and a partial write both fail, one of them holds the previous content or the primary
holds the new record. -/
theorem Save_keeps_copy (s : StorageFile) (game : Game) (f : Faults) (old : List Nat)
    (hw : s.rwm.writer = false) (hr : s.rwm.readers = 0)
    (hold : s.disk.content (s.path ++ bytes "/" ++ game.id) = some old) :
    ∃ err s', s.Save game f = .returns err s' ∧
      (f.stat = false → f.rename = false → f.write ≠ WriteFault.none →
        err ≠ none ∧
        s'.disk.content (s.path ++ bytes "/" ++ game.id ++ backupExt) = some old) ∧
      (f.stat = false → f.rename = true → err ≠ none ∧ s'.disk = s.disk) ∧
      (f.rename = false → f.write = WriteFault.none → err = none) ∧
      (f.stat = false → f.rename = false → f.write = WriteFault.none → f.remove = true →
        s'.disk.content (s.path ++ bytes "/" ++ game.id ++ backupExt) = some old ∧
        s'.disk.content (s.path ++ bytes "/" ++ game.id) = some game.Marshal) ∧
      (s'.disk.content (s.path ++ bytes "/" ++ game.id) ≠ none ∨
        s'.disk.content (s.path ++ bytes "/" ++ game.id ++ backupExt) ≠ none) ∧
      ((f.stat = true → ∀ n, f.write ≠ WriteFault.short n) →
        s'.disk.content (s.path ++ bytes "/" ++ game.id) = some old ∨
        s'.disk.content (s.path ++ bytes "/" ++ game.id) = some game.Marshal ∨
        s'.disk.content (s.path ++ bytes "/" ++ game.id ++ backupExt) = some old) := by
  rw [Save_eq s game f hw hr]
  generalize hfn : s.path ++ bytes "/" ++ game.id = fname at hold ⊢
  have hne : fname ≠ fname ++ backupExt := ne_append_backupExt fname
  have hne' : fname ++ backupExt ≠ fname := fun e => hne e.symm
  have hb0 : ((s.disk.without fname).withFile (fname ++ backupExt) old).content
      (fname ++ backupExt) = some old := Files.content_withFile _ _ _
  have hb1 : ∀ data, (((s.disk.without fname).withFile (fname ++ backupExt) old).withFile
      fname data).content (fname ++ backupExt) = some old := by
    intro data
    rw [Files.content_withFile_ne _ _ _ _ hne', hb0]
  have hf1 : ∀ (d : Files) data, (d.withFile fname data).content fname = some data :=
    fun d data => Files.content_withFile d fname data
  have hf2 : ((((s.disk.without fname).withFile (fname ++ backupExt) old).withFile
      fname game.Marshal).without (fname ++ backupExt)).content fname = some game.Marshal := by
    rw [Files.content_without_ne _ _ _ hne]
    exact Files.content_withFile _ _ _
  have hwcases : f.write = WriteFault.none ∨ f.write = WriteFault.cannotOpen
      ∨ ∃ n, f.write = WriteFault.short n := by
    cases f.write <;> simp
  rcases Bool.eq_false_or_eq_true f.stat with hst | hst
  · have hos : osStat s.disk fname f = .error .other := by simp only [osStat, hst, if_true]
    rw [hos]
    dsimp only
    rw [Save.write_eq s game fname false f hw hr]
    rcases hwcases with hwf | hwf | ⟨n, hwf⟩
    · simp only [osWriteFile, hwf, Bool.false_eq_true, if_false]
      refine ⟨_, _, rfl, ?_, ?_, ?_, ?_, ?_, ?_⟩ <;> simp [hst, hwf, hf1]
    · simp only [osWriteFile, hwf]
      refine ⟨_, _, rfl, ?_, ?_, ?_, ?_, ?_, ?_⟩ <;> simp [hst, hwf, hold]
    · simp only [osWriteFile, hwf]
      refine ⟨_, _, rfl, ?_, ?_, ?_, ?_, ?_, ?_⟩ <;> simp [hst, hwf, hf1]
  · have hos : osStat s.disk fname f = .ok old.length := by
      simp only [osStat, hst, hold, Bool.false_eq_true, if_false]
    rw [hos]
    dsimp only
    rcases Bool.eq_false_or_eq_true f.rename with hrn | hrn
    · have hor : osRename s.disk fname (fname ++ backupExt) f = .error "rename failed" := by
        simp only [osRename, hrn, if_true]
      rw [hor]
      refine ⟨_, _, rfl, ?_, ?_, ?_, ?_, ?_, ?_⟩ <;> simp [hst, hrn, hold]
    · have hor : osRename s.disk fname (fname ++ backupExt) f
          = .ok ((s.disk.without fname).withFile (fname ++ backupExt) old) := by
        simp only [osRename, hrn, hold, Bool.false_eq_true, if_false]
      rw [hor]
      dsimp only
      rw [Save.write_eq
        { s with disk := (s.disk.without fname).withFile (fname ++ backupExt) old } game fname
        true f hw hr]
      rcases hwcases with hwf | hwf | ⟨n, hwf⟩
      · simp only [osWriteFile, hwf, if_true]
        rcases Bool.eq_false_or_eq_true f.remove with hrm | hrm
        · have hre : osRemove (((s.disk.without fname).withFile (fname ++ backupExt) old).withFile
              fname game.Marshal) (fname ++ backupExt) f = .error "remove failed" := by
            simp only [osRemove, hrm, if_true]
          rw [hre]
          refine ⟨_, _, rfl, ?_, ?_, ?_, ?_, ?_, ?_⟩ <;> simp [hst, hrn, hwf, hrm, hb1, hf1]
        · have hre : osRemove (((s.disk.without fname).withFile (fname ++ backupExt) old).withFile
              fname game.Marshal) (fname ++ backupExt) f
              = .ok ((((s.disk.without fname).withFile (fname ++ backupExt) old).withFile
                  fname game.Marshal).without (fname ++ backupExt)) := by
            simp only [osRemove, hrm, hb1, Bool.false_eq_true, if_false]
          rw [hre]
          refine ⟨_, _, rfl, ?_, ?_, ?_, ?_, ?_, ?_⟩ <;> simp [hst, hrn, hwf, hrm, hf2]
      · simp only [osWriteFile, hwf]
        refine ⟨_, _, rfl, ?_, ?_, ?_, ?_, ?_, ?_⟩ <;> simp [hst, hrn, hwf, hb0]
      · simp only [osWriteFile, hwf]
        refine ⟨_, _, rfl, ?_, ?_, ?_, ?_, ?_, ?_⟩ <;> simp [hst, hrn, hwf, hb1, hf1]

theorem Save_keeps_copy_witness :
    ∃ err s',
      StorageFile.Save
          ⟨bytes "/srv/games", ⟨0, false⟩,
            [(bytes "/srv/games/af2b8c1e-7d4a-4c19-9e55-0a1b2c3d4e5f",
              Game.Marshal ⟨bytes "af2b8c1e-7d4a-4c19-9e55-0a1b2c3d4e5f", bytes "XO-------",
                RUNNING⟩)], []⟩
          ⟨bytes "af2b8c1e-7d4a-4c19-9e55-0a1b2c3d4e5f", bytes "XOX-O----", RUNNING⟩
          { Faults.none with write := WriteFault.short 5 }
        = .returns err s' ∧ err ≠ none ∧
      s'.disk.content (bytes "/srv/games" ++ bytes "/"
          ++ bytes "af2b8c1e-7d4a-4c19-9e55-0a1b2c3d4e5f" ++ backupExt)
        = some (Game.Marshal
            ⟨bytes "af2b8c1e-7d4a-4c19-9e55-0a1b2c3d4e5f", bytes "XO-------", RUNNING⟩) :=
  let ⟨err, s', h, h1, _⟩ :=
    Save_keeps_copy
      ⟨bytes "/srv/games", ⟨0, false⟩,
        [(bytes "/srv/games/af2b8c1e-7d4a-4c19-9e55-0a1b2c3d4e5f",
          Game.Marshal ⟨bytes "af2b8c1e-7d4a-4c19-9e55-0a1b2c3d4e5f", bytes "XO-------",
            RUNNING⟩)], []⟩
      ⟨bytes "af2b8c1e-7d4a-4c19-9e55-0a1b2c3d4e5f", bytes "XOX-O----", RUNNING⟩
      { Faults.none with write := WriteFault.short 5 }
      (Game.Marshal ⟨bytes "af2b8c1e-7d4a-4c19-9e55-0a1b2c3d4e5f", bytes "XO-------", RUNNING⟩)
      rfl rfl rfl
  ⟨err, s', h, (h1 rfl rfl (by decide)).1, (h1 rfl rfl (by decide)).2⟩

/-! ## The store: `Save` returns, and `Get` returns what was saved -/

/-- `Save` on a store with a free lock, at an id without a file, when `os.Stat` and the
write work: no error, and the text of the record is the new file. -/
theorem Save_fresh (s : StorageFile) (g : Game) (f : Faults) (hw : s.rwm.writer = false)
    (hr : s.rwm.readers = 0) (hstat : f.stat = false) (hwf : f.write = WriteFault.none)
    (hmiss : s.disk.content (s.path ++ bytes "/" ++ g.id) = none) :
    s.Save g f =
      .returns none { s with disk := s.disk.withFile (s.path ++ bytes "/" ++ g.id) g.Marshal } := by
  have hos : osStat s.disk (s.path ++ bytes "/" ++ g.id) f = .error .notExist := by
    simp only [osStat, hstat, hmiss, Bool.false_eq_true, if_false]
  rw [Save_eq s g f hw hr, hos]
  dsimp only
  rw [Save.write_eq s g _ false f hw hr]
  simp only [osWriteFile, hwf, Bool.false_eq_true, if_false]

/-- `Save` on a store with a free lock, at an id with a file, when every step works: no
error; the old file has been moved to the backup, the text of the record written as the
new file, and the backup removed. -/
theorem Save_replace (s : StorageFile) (g : Game) (f : Faults) (old : List Nat)
    (hw : s.rwm.writer = false) (hr : s.rwm.readers = 0) (hstat : f.stat = false)
    (hrn : f.rename = false) (hwf : f.write = WriteFault.none) (hrm : f.remove = false)
    (hold : s.disk.content (s.path ++ bytes "/" ++ g.id) = some old) :
    s.Save g f =
      .returns none
        { s with disk :=
            ((((s.disk.without (s.path ++ bytes "/" ++ g.id)).withFile
              (s.path ++ bytes "/" ++ g.id ++ backupExt) old).withFile
              (s.path ++ bytes "/" ++ g.id) g.Marshal).without
              (s.path ++ bytes "/" ++ g.id ++ backupExt)) } := by
  rw [Save_eq s g f hw hr]
  generalize hfn : s.path ++ bytes "/" ++ g.id = fname at hold ⊢
  have hne' : fname ++ backupExt ≠ fname := fun e => ne_append_backupExt fname e.symm
  have hos : osStat s.disk fname f = .ok old.length := by
    simp only [osStat, hstat, hold, Bool.false_eq_true, if_false]
  have hor : osRename s.disk fname (fname ++ backupExt) f
      = .ok ((s.disk.without fname).withFile (fname ++ backupExt) old) := by
    simp only [osRename, hrn, hold, Bool.false_eq_true, if_false]
  have hb1 : (((s.disk.without fname).withFile (fname ++ backupExt) old).withFile
      fname g.Marshal).content (fname ++ backupExt) = some old := by
    rw [Files.content_withFile_ne _ _ _ _ hne']
    exact Files.content_withFile _ _ _
  have hre : osRemove (((s.disk.without fname).withFile (fname ++ backupExt) old).withFile
      fname g.Marshal) (fname ++ backupExt) f
      = .ok ((((s.disk.without fname).withFile (fname ++ backupExt) old).withFile
          fname g.Marshal).without (fname ++ backupExt)) := by
    simp only [osRemove, hrm, hb1, Bool.false_eq_true, if_false]
  rw [hos]
  dsimp only
  rw [hor]
  dsimp only
  rw [Save.write_eq
    { s with disk := (s.disk.without fname).withFile (fname ++ backupExt) old } g fname true f
    hw hr]
  simp only [osWriteFile, hwf, if_true]
  rw [hre]

/-- `Save` on a store with a free lock returns no error whenever the backup rename and
the write do not fail, whatever the disk holds and whatever else fails. -/
theorem Save_returns_nil (s : StorageFile) (g : Game) (f : Faults) (hw : s.rwm.writer = false)
    (hr : s.rwm.readers = 0) (hrn : f.rename = false) (hwf : f.write = WriteFault.none) :
    ∃ s', s.Save g f = .returns none s' := by
  rw [Save_eq s g f hw hr]
  generalize s.path ++ bytes "/" ++ g.id = fname
  cases hos : osStat s.disk fname f with
  | error e =>
    dsimp only
    rw [Save.write_eq s g fname false f hw hr]
    simp only [osWriteFile, hwf, Bool.false_eq_true, if_false]
    exact ⟨_, rfl⟩
  | ok size =>
    dsimp only
    have hc : ∃ c, s.disk.content fname = some c := by
      unfold osStat at hos
      split at hos
      · cases hos
      · split at hos
        · rename_i c hc
          exact ⟨c, hc⟩
        · cases hos
    obtain ⟨c, hc⟩ := hc
    have hor : osRename s.disk fname (fname ++ backupExt) f
        = .ok ((s.disk.without fname).withFile (fname ++ backupExt) c) := by
      simp only [osRename, hrn, hc, Bool.false_eq_true, if_false]
    rw [hor]
    dsimp only
    rw [Save.write_eq
      { s with disk := (s.disk.without fname).withFile (fname ++ backupExt) c } g fname true f
      hw hr]
    simp only [osWriteFile, hwf, if_true]
    cases osRemove (((s.disk.without fname).withFile (fname ++ backupExt) c).withFile
        fname g.Marshal) (fname ++ backupExt) f with
    | error e => exact ⟨_, rfl⟩
    | ok d2 => exact ⟨_, rfl⟩

/-- C10: for a record with a valid 36-character id, a nine-cell board over the three
symbols and one of the four statuses, and for every store state: whenever `Save`
returns no error, a `Get` of the id that follows at once and meets no failure of
`os.Stat` or of the read returns the saved record and leaves the store as it is. And
`Save` does return no error on a store with a free lock whenever the backup rename and
the write do not fail: the lock is as before and the file of the id holds the text of
the record. On an id without a file the new file is written; on an id with a file the
old file is moved to the backup, the new file written and the backup removed. -/
theorem Save_then_Get (s : StorageFile) (g : Game) (f f' : Faults)
    (hid : IsValidGameId g.id = true) (hlen : g.board.length = 9)
    (hcells : ∀ c ∈ g.board, validCell c) (hstatus : g.status = RUNNING ∨ terminal g.status)
    (hstat : f'.stat = false) (hread : f'.read = false) :
    (∀ s', s.Save g f = .returns none s' → s'.Get g.id f' = .returns (.ok g) s') ∧
    (s.rwm.writer = false → s.rwm.readers = 0 → f.rename = false →
      f.write = WriteFault.none →
      ∃ s', s.Save g f = .returns none s' ∧ s'.rwm = s.rwm ∧
        s'.disk.content (s.path ++ bytes "/" ++ g.id) = some g.Marshal ∧
        s'.Get g.id f' = .returns (.ok g) s') ∧
    (s.rwm.writer = false → s.rwm.readers = 0 → f.stat = false →
      f.write = WriteFault.none → s.disk.content (s.path ++ bytes "/" ++ g.id) = none →
      s.Save g f =
        .returns none
          { s with disk := s.disk.withFile (s.path ++ bytes "/" ++ g.id) g.Marshal }) ∧
    (s.rwm.writer = false → s.rwm.readers = 0 → f.stat = false → f.rename = false →
      f.write = WriteFault.none → f.remove = false →
      ∀ old, s.disk.content (s.path ++ bytes "/" ++ g.id) = some old →
      s.Save g f =
        .returns none
          { s with disk :=
              ((((s.disk.without (s.path ++ bytes "/" ++ g.id)).withFile
                (s.path ++ bytes "/" ++ g.id ++ backupExt) old).withFile
                (s.path ++ bytes "/" ++ g.id) g.Marshal).without
                (s.path ++ bytes "/" ++ g.id ++ backupExt)) }) := by
  have hget : ∀ s', s.Save g f = .returns none s' → s'.Get g.id f' = .returns (.ok g) s' :=
    fun s' hsave => Get_after_Save s s' g f f' hid hlen hcells hstatus hsave hstat hread
  refine ⟨hget, ?_, ?_, ?_⟩
  · intro hw hr hrn hwf
    obtain ⟨s', hs'⟩ := Save_returns_nil s g f hw hr hrn hwf
    obtain ⟨_, hrwm, _, _, hcontent⟩ := Save_ok s s' g f hs'
    exact ⟨s', hs', hrwm, hcontent, hget s' hs'⟩
  · intro hw hr hst hwf hmiss
    exact Save_fresh s g f hw hr hst hwf hmiss
  · intro hw hr hst hrn hwf hrm old hold
    exact Save_replace s g f old hw hr hst hrn hwf hrm hold

theorem Save_then_Get_witness :
    (StorageFile.Save ⟨bytes "/srv/games", ⟨0, false⟩, [], []⟩
        ⟨bytes "af2b8c1e-7d4a-4c19-9e55-0a1b2c3d4e5f", bytes "XO-------", RUNNING⟩ Faults.none
      = .returns none
          ⟨bytes "/srv/games", ⟨0, false⟩,
            [(bytes "/srv/games/af2b8c1e-7d4a-4c19-9e55-0a1b2c3d4e5f",
              Game.Marshal ⟨bytes "af2b8c1e-7d4a-4c19-9e55-0a1b2c3d4e5f", bytes "XO-------",
                RUNNING⟩)], []⟩) ∧
    (StorageFile.Get
        ⟨bytes "/srv/games", ⟨0, false⟩,
          [(bytes "/srv/games/af2b8c1e-7d4a-4c19-9e55-0a1b2c3d4e5f",
            Game.Marshal ⟨bytes "af2b8c1e-7d4a-4c19-9e55-0a1b2c3d4e5f", bytes "XO-------",
              RUNNING⟩)], []⟩
        (bytes "af2b8c1e-7d4a-4c19-9e55-0a1b2c3d4e5f") Faults.none
      = .returns (.ok ⟨bytes "af2b8c1e-7d4a-4c19-9e55-0a1b2c3d4e5f", bytes "XO-------", RUNNING⟩)
          ⟨bytes "/srv/games", ⟨0, false⟩,
            [(bytes "/srv/games/af2b8c1e-7d4a-4c19-9e55-0a1b2c3d4e5f",
              Game.Marshal ⟨bytes "af2b8c1e-7d4a-4c19-9e55-0a1b2c3d4e5f", bytes "XO-------",
                RUNNING⟩)], []⟩) ∧
    (StorageFile.Save
        ⟨bytes "/srv/games", ⟨0, false⟩,
          [(bytes "/srv/games/af2b8c1e-7d4a-4c19-9e55-0a1b2c3d4e5f",
            Game.Marshal ⟨bytes "af2b8c1e-7d4a-4c19-9e55-0a1b2c3d4e5f", bytes "XO-------",
              RUNNING⟩)], []⟩
        ⟨bytes "af2b8c1e-7d4a-4c19-9e55-0a1b2c3d4e5f", bytes "XOX-O----", RUNNING⟩ Faults.none
      = .returns none
          ⟨bytes "/srv/games", ⟨0, false⟩,
            [(bytes "/srv/games/af2b8c1e-7d4a-4c19-9e55-0a1b2c3d4e5f",
              Game.Marshal ⟨bytes "af2b8c1e-7d4a-4c19-9e55-0a1b2c3d4e5f", bytes "XOX-O----",
                RUNNING⟩)], []⟩) ∧
    (StorageFile.Get
        ⟨bytes "/srv/games", ⟨0, false⟩,
          [(bytes "/srv/games/af2b8c1e-7d4a-4c19-9e55-0a1b2c3d4e5f",
            Game.Marshal ⟨bytes "af2b8c1e-7d4a-4c19-9e55-0a1b2c3d4e5f", bytes "XOX-O----",
              RUNNING⟩)], []⟩
        (bytes "af2b8c1e-7d4a-4c19-9e55-0a1b2c3d4e5f") Faults.none
      = .returns (.ok ⟨bytes "af2b8c1e-7d4a-4c19-9e55-0a1b2c3d4e5f", bytes "XOX-O----", RUNNING⟩)
          ⟨bytes "/srv/games", ⟨0, false⟩,
            [(bytes "/srv/games/af2b8c1e-7d4a-4c19-9e55-0a1b2c3d4e5f",
              Game.Marshal ⟨bytes "af2b8c1e-7d4a-4c19-9e55-0a1b2c3d4e5f", bytes "XOX-O----",
                RUNNING⟩)], []⟩) :=
  ⟨(Save_then_Get ⟨bytes "/srv/games", ⟨0, false⟩, [], []⟩
      ⟨bytes "af2b8c1e-7d4a-4c19-9e55-0a1b2c3d4e5f", bytes "XO-------", RUNNING⟩
      Faults.none Faults.none (by decide) (by decide) (by decide) (by decide) rfl rfl).2.2.1
      rfl rfl rfl rfl rfl,
   (Save_then_Get ⟨bytes "/srv/games", ⟨0, false⟩, [], []⟩
      ⟨bytes "af2b8c1e-7d4a-4c19-9e55-0a1b2c3d4e5f", bytes "XO-------", RUNNING⟩
      Faults.none Faults.none (by decide) (by decide) (by decide) (by decide) rfl rfl).1 _
      ((Save_then_Get ⟨bytes "/srv/games", ⟨0, false⟩, [], []⟩
        ⟨bytes "af2b8c1e-7d4a-4c19-9e55-0a1b2c3d4e5f", bytes "XO-------", RUNNING⟩
        Faults.none Faults.none (by decide) (by decide) (by decide) (by decide) rfl rfl).2.2.1
        rfl rfl rfl rfl rfl),
   (Save_then_Get
      ⟨bytes "/srv/games", ⟨0, false⟩,
        [(bytes "/srv/games/af2b8c1e-7d4a-4c19-9e55-0a1b2c3d4e5f",
          Game.Marshal ⟨bytes "af2b8c1e-7d4a-4c19-9e55-0a1b2c3d4e5f", bytes "XO-------",
            RUNNING⟩)], []⟩
      ⟨bytes "af2b8c1e-7d4a-4c19-9e55-0a1b2c3d4e5f", bytes "XOX-O----", RUNNING⟩
      Faults.none Faults.none (by decide) (by decide) (by decide) (by decide) rfl rfl).2.2.2
      rfl rfl rfl rfl rfl rfl _ rfl,
   (Save_then_Get
      ⟨bytes "/srv/games", ⟨0, false⟩,
        [(bytes "/srv/games/af2b8c1e-7d4a-4c19-9e55-0a1b2c3d4e5f",
          Game.Marshal ⟨bytes "af2b8c1e-7d4a-4c19-9e55-0a1b2c3d4e5f", bytes "XO-------",
            RUNNING⟩)], []⟩
      ⟨bytes "af2b8c1e-7d4a-4c19-9e55-0a1b2c3d4e5f", bytes "XOX-O----", RUNNING⟩
      Faults.none Faults.none (by decide) (by decide) (by decide) (by decide) rfl rfl).1 _
      ((Save_then_Get
        ⟨bytes "/srv/games", ⟨0, false⟩,
          [(bytes "/srv/games/af2b8c1e-7d4a-4c19-9e55-0a1b2c3d4e5f",
            Game.Marshal ⟨bytes "af2b8c1e-7d4a-4c19-9e55-0a1b2c3d4e5f", bytes "XO-------",
              RUNNING⟩)], []⟩
        ⟨bytes "af2b8c1e-7d4a-4c19-9e55-0a1b2c3d4e5f", bytes "XOX-O----", RUNNING⟩
        Faults.none Faults.none (by decide) (by decide) (by decide) (by decide) rfl rfl).2.2.2
        rfl rfl rfl rfl rfl rfl _ rfl)⟩

end TicTacToe
